import Mathlib

/-!
# Matching engine: order book, insertion and matching

A shallow embedding of `src/src/OrderBook.h` and `src/src/OrderBook.cpp`.

* `Order` is a `std::shared_ptr<OrderStruct>`.  Every order object is created once per input
  line by `OrderBook::process` and is referenced from at most one place of the book, so the
  two vectors of the book are embedded as lists of order values and the incoming order as a
  value that is threaded through `match` and handed to `insert`.
* `int` fields (`id`, `quantity`, `compare_by`, `peak`) and the `short` field `price` are
  embedded as `Int`.  The only arithmetic of the matching loop is `x - min(x, y)` with
  `x > 0` for the incoming order; when the resting quantities are positive, as they are in
  every book `OrderBook::process` can hold (`reachable_invariant`), its results lie
  between `0` and `x` (`match_one_side_bounds`), so the loop cannot leave the range of
  `int`.  The narrowing cast of the price in the constructor is modelled by
  `static_cast_short`; the key `-1 * price` is computed in `int` from a `short` and cannot
  overflow.
* The trade lines written to `std::cout` by `match_one_side` are embedded as a list of
  `Trade` records, in the order in which they are printed.
* An input line is embedded as its list of characters.  The exceptions of `std::stoi`, which
  the repository does not catch, are embedded as the error values of `Except`.
-/

namespace MatchingEngine

/-! ## Data model (`OrderBook.h`) -/

/-- The enumeration `OrderSide` of `OrderBook.h`. -/
inductive OrderSide where
  | BUY
  | SELL
  deriving DecidableEq

/-- The two concrete subclasses of `OrderStruct`: `LimitOrder` has no further field,
`IcebergOrder` adds the field `peak`. -/
inductive OrderKind where
  | LimitOrder
  | IcebergOrder (peak : Int)
  deriving DecidableEq

/-- The fields of `struct OrderStruct` (`OrderBook.h`, lines 15-28) together with the
subclass the object was created as. -/
structure OrderStruct where
  side : OrderSide
  id : Int
  price : Int
  quantity : Int
  compare_by : Int
  kind : OrderKind
  deriving DecidableEq

/-- One trade message printed by `match_one_side` (`OrderBook.cpp`, lines 221-222):
`top_order->id , incoming_order->id , trade_price , trade_quantity`. -/
structure Trade where
  resting_id : Int
  incoming_id : Int
  price : Int
  quantity : Int
  deriving DecidableEq

/-- The private members of `class OrderBook` (`OrderBook.h`, line 47). -/
structure OrderBook where
  sell_orders : List OrderStruct
  buy_orders : List OrderStruct
  deriving DecidableEq

/-- The book a freshly constructed `OrderBook` object holds: both vectors empty. -/
def OrderBook.empty : OrderBook := ⟨[], []⟩

/-! ## Order construction and display volume -/

/-- The conversion `static_cast<short>(n)` of an `int` to the 16-bit signed type:
reduction modulo `2^16` into the range `-32768 .. 32767`. -/
def static_cast_short (n : Int) : Int :=
  (n + 32768) % 65536 - 32768

/-- The field assignments of the constructor `OrderStruct::OrderStruct`
(`OrderBook.cpp`, lines 74-96) once the four fields of the line have been read:
`side` is the side chosen at lines 74-79, `id_field`, `price_field` and `quantity_field`
are the values returned by `std::stoi` at lines 83, 87 and 96, and `kind` is the subclass
whose constructor runs (with the peak read at line 141 for an iceberg order). -/
def OrderStruct.construct (side : OrderSide) (id_field price_field quantity_field : Int)
    (kind : OrderKind) : OrderStruct :=
  let price := static_cast_short price_field
  { side := side
    id := id_field
    price := price
    quantity := quantity_field
    compare_by := if side = OrderSide.SELL then price else -1 * price
    kind := kind }

/-- The virtual method `display_volume` (`OrderBook.cpp`, lines 144-146 and 153-155). -/
def OrderStruct.display_volume (order : OrderStruct) : Int :=
  match order.kind with
  | OrderKind.IcebergOrder peak => min peak order.quantity
  | OrderKind.LimitOrder => order.quantity

/-! ## Insertion (`OrderBook.cpp`, lines 160-174) -/

/-- The call `std::upper_bound(orders.begin(), orders.end(), order, comp)` of line 162 with
`comp(lhs, rhs) = lhs->compare_by < rhs->compare_by`, as an index into `orders`.
The C++ standard requires `orders` to be partitioned with respect to `!comp(order, e)` and
defines the result as the furthermost position `i` such that `!comp(order, e)` holds for
every element `e` before `i`; this is the value computed here. -/
def upper_bound (orders : List OrderStruct) (order : OrderStruct) : Nat :=
  (orders.takeWhile (fun e => !decide (order.compare_by < e.compare_by))).length

/-- The static method `OrderBook::insert_into` (lines 160-166): `orders.insert(loc, order)`
puts `order` in front of the element at position `loc`. -/
def insert_into (orders : List OrderStruct) (order : OrderStruct) : List OrderStruct :=
  let loc := upper_bound orders order
  orders.take loc ++ order :: orders.drop loc

/-- The method `OrderBook::insert` (lines 168-174). -/
def OrderBook.insert (book : OrderBook) (order : OrderStruct) : OrderBook :=
  if order.side = OrderSide.SELL then
    { book with sell_orders := insert_into book.sell_orders order }
  else
    { book with buy_orders := insert_into book.buy_orders order }

/-! ## Matching (`OrderBook.cpp`, lines 206-242) -/

/-- The function `is_trade_possible` (lines 206-212). -/
def is_trade_possible (order_from_order_book incoming_order : OrderStruct) : Bool :=
  if incoming_order.side = OrderSide.BUY then
    decide (order_from_order_book.price ≤ incoming_order.price)
  else
    decide (order_from_order_book.price ≥ incoming_order.price)

/-- What `match_one_side` leaves behind: the vector it was given, the incoming order, and
the trade messages it printed, first message first. -/
structure MatchResult where
  order_book : List OrderStruct
  incoming_order : OrderStruct
  trades : List Trade
  deriving DecidableEq

/-- One pass through the `while` statement of `match_one_side` (lines 215-231): the loop
condition of line 215 is evaluated and, when it holds, the loop body runs once.  The value
is `none` when the loop condition fails, and otherwise the trade message printed at lines
221-222 together with the vector and the incoming order as the body leaves them. -/
def match_step (order_book : List OrderStruct) (incoming_order : OrderStruct) :
    Option (Trade × List OrderStruct × OrderStruct) :=
  match order_book with
  | [] => none
  | top_order :: rest =>
    if incoming_order.quantity > 0 ∧ is_trade_possible top_order incoming_order = true then
      let trade_price := top_order.price
      let trade_quantity := min incoming_order.quantity top_order.quantity
      let trade : Trade := ⟨top_order.id, incoming_order.id, trade_price, trade_quantity⟩
      let top_order1 := { top_order with quantity := top_order.quantity - trade_quantity }
      let order_book1 := if top_order1.quantity ≤ 0 then rest else top_order1 :: rest
      let incoming_order1 :=
        { incoming_order with quantity := incoming_order.quantity - trade_quantity }
      some (trade, order_book1, incoming_order1)
    else
      none

/-- The function `match_one_side` (lines 214-232): the `while` statement is run pass by
pass until its condition fails; the trade messages are collected in printing order. -/
def match_one_side (order_book : List OrderStruct) (incoming_order : OrderStruct) :
    MatchResult :=
  match h : match_step order_book incoming_order with
  | none => ⟨order_book, incoming_order, []⟩
  | some (trade, order_book1, incoming_order1) =>
    let r := match_one_side order_book1 incoming_order1
    ⟨r.order_book, r.incoming_order, trade :: r.trades⟩
termination_by (order_book.length, incoming_order.quantity.toNat)
decreasing_by
  cases order_book with
  | nil => simp [match_step] at h
  | cons top_order rest =>
    simp only [match_step] at h
    split at h
    · rename_i hcond
      obtain ⟨hpos, _⟩ := hcond
      simp only [Option.some.injEq, Prod.mk.injEq] at h
      obtain ⟨_, hb, hi⟩ := h
      subst hb hi
      by_cases hq : top_order.quantity - min incoming_order.quantity top_order.quantity ≤ 0
      · rw [if_pos hq]
        exact Prod.Lex.left _ _ (Nat.lt_succ_self _)
      · rw [if_neg hq]
        have hmin : min incoming_order.quantity top_order.quantity = incoming_order.quantity :=
          min_eq_left (by omega)
        simp only [hmin, List.length_cons, sub_self, Int.toNat_zero]
        exact Prod.Lex.right _ (by omega)
    · simp at h

/-- The vector and the incoming order as they stand after `k` executions of the loop body
of `match_one_side`, that is, at the `k+1`-th evaluation of the loop condition; `none` when
the loop has stopped before. -/
def state_after : Nat → List OrderStruct → OrderStruct → Option (List OrderStruct × OrderStruct)
  | 0, order_book, incoming_order => some (order_book, incoming_order)
  | k + 1, order_book, incoming_order =>
    match match_step order_book incoming_order with
    | none => none
    | some (_, order_book1, incoming_order1) => state_after k order_book1 incoming_order1

/-- What one submission leaves behind: the book, the incoming order, and the trade messages
printed, first message first. -/
structure BookResult where
  book : OrderBook
  incoming_order : OrderStruct
  trades : List Trade
  deriving DecidableEq

/-- The method `OrderBook::match` (lines 234-242). -/
def OrderBook.match_ (book : OrderBook) (incoming_order : OrderStruct) : BookResult :=
  if incoming_order.side = OrderSide.BUY then
    let r := match_one_side book.sell_orders incoming_order
    ⟨{ book with sell_orders := r.order_book }, r.incoming_order, r.trades⟩
  else
    let r := match_one_side book.buy_orders incoming_order
    ⟨{ book with buy_orders := r.order_book }, r.incoming_order, r.trades⟩

/-- The vector `OrderBook::match` hands to `match_one_side` for an incoming order
(lines 235-241): the sell orders for a BUY, the buy orders otherwise. -/
def OrderBook.opposite (book : OrderBook) (incoming_order : OrderStruct) : List OrderStruct :=
  if incoming_order.side = OrderSide.BUY then book.sell_orders else book.buy_orders

/-- The vector `OrderBook::insert` hands to `insert_into` for an order (lines 169-173):
the sell orders for a SELL, the buy orders otherwise. -/
def OrderBook.own_side (book : OrderBook) (order : OrderStruct) : List OrderStruct :=
  if order.side = OrderSide.SELL then book.sell_orders else book.buy_orders

/-- The trade message the loop body of `match_one_side` prints when the resting order
`resting` is filled completely by the incoming order with id `incoming_id`
(`trade_quantity` is then `resting.quantity`). -/
def full_fill (incoming_id : Int) (resting : OrderStruct) : Trade :=
  ⟨resting.id, incoming_id, resting.price, resting.quantity⟩

/-- The sum of the `quantity` fields of a list of orders. -/
def total_quantity (orders : List OrderStruct) : Int :=
  (orders.map OrderStruct.quantity).sum

/-- The sum of the quantities of a list of trade messages. -/
def traded_total (trades : List Trade) : Int :=
  (trades.map Trade.quantity).sum

/-- The quantity of the order with id `id` in `orders`, taken as `0` when `orders` holds
no order with that id. -/
def quantity_of (orders : List OrderStruct) (id : Int) : Int :=
  match orders.find? (fun o => decide (o.id = id)) with
  | some o => o.quantity
  | none => 0

/-- The sum of the quantities of the trade messages that carry `id` as the id of the
resting order. -/
def traded_with (trades : List Trade) (id : Int) : Int :=
  traded_total (trades.filter (fun t => decide (t.resting_id = id)))

/-- A vector of orders is sorted by non-decreasing `compare_by`, the key `insert_into`
searches with. -/
def sorted_by_key (orders : List OrderStruct) : Prop :=
  orders.Pairwise (fun a b => a.compare_by ≤ b.compare_by)

/-- What `OrderBook::process` maintains of the book between two input lines: every order
rests in the vector of its side with the key its constructor gave it (`price` for SELL,
`-price` for BUY) and a positive quantity, and both vectors are sorted by that key. -/
def OrderBook.invariant (book : OrderBook) : Prop :=
  (∀ r ∈ book.sell_orders,
    r.side = OrderSide.SELL ∧ r.compare_by = r.price ∧ 0 < r.quantity) ∧
  (∀ r ∈ book.buy_orders,
    r.side = OrderSide.BUY ∧ r.compare_by = -r.price ∧ 0 < r.quantity) ∧
  sorted_by_key book.sell_orders ∧ sorted_by_key book.buy_orders

/-- The order `new` is the order `old` with a quantity that has not grown and is not
negative; every other field is the same. -/
def quantity_reduced (old new : OrderStruct) : Prop :=
  new = { old with quantity := new.quantity } ∧
    0 ≤ new.quantity ∧ new.quantity ≤ old.quantity

/-- The treatment of one constructed order by `OrderBook::process` (lines 251-254):
`match`, then `insert` if a positive quantity remains. -/
def OrderBook.submit (book : OrderBook) (incoming_order : OrderStruct) : BookResult :=
  let r := book.match_ incoming_order
  if r.incoming_order.quantity > 0 then
    ⟨r.book.insert r.incoming_order, r.incoming_order, r.trades⟩
  else
    r

/-- The first order of scenario A of the specification: SELL, id 1, price 100,
quantity 10. -/
def scenario_sell_1 : OrderStruct :=
  OrderStruct.construct OrderSide.SELL 1 100 10 OrderKind.LimitOrder

/-- The second order of scenario A of the specification: BUY, id 2, price 100,
quantity 4. -/
def scenario_buy_2 : OrderStruct :=
  OrderStruct.construct OrderSide.BUY 2 100 4 OrderKind.LimitOrder

/-- The book of scenario A of the specification after its first submission. -/
def scenario_book_1 : OrderBook :=
  (OrderBook.empty.submit scenario_sell_1).book

/-- A BUY order below the resting SELL price: id 9, price 99, quantity 5. -/
def scenario_buy_9 : OrderStruct :=
  OrderStruct.construct OrderSide.BUY 9 99 5 OrderKind.LimitOrder

/-- The book of scenario A of the specification after its second submission. -/
def scenario_book_2 : OrderBook :=
  (scenario_book_1.submit scenario_buy_2).book

/-- The book of scenario A after a third submission, of `scenario_buy_9`, which rests. -/
def scenario_book_3 : OrderBook :=
  (scenario_book_2.submit scenario_buy_9).book

/-- A book with three resting SELL orders, two of them at the price 100. -/
def tie_book : OrderBook :=
  ⟨[⟨OrderSide.SELL, 1, 100, 10, 100, OrderKind.LimitOrder⟩,
    ⟨OrderSide.SELL, 2, 100, 5, 100, OrderKind.LimitOrder⟩,
    ⟨OrderSide.SELL, 3, 101, 7, 101, OrderKind.LimitOrder⟩], []⟩

/-- A further SELL order at the price 100. -/
def tie_order : OrderStruct :=
  ⟨OrderSide.SELL, 4, 100, 8, 100, OrderKind.LimitOrder⟩

/-- The books `OrderBook::process` can hold between two input lines: the empty book, and
the book left by submitting one more constructed order. -/
inductive Reachable : OrderBook → Prop where
  | empty : Reachable OrderBook.empty
  | submit (book : OrderBook) (side : OrderSide) (id_field price_field quantity_field : Int)
      (kind : OrderKind) :
      Reachable book →
      Reachable (book.submit
        (OrderStruct.construct side id_field price_field quantity_field kind)).book

/-- The books `OrderBook::process` holds, with the input that led to them: `Processed
orders book` says that `book` is what is left after the constructed orders `orders` have
been submitted to the empty book, first order first. -/
inductive Processed : List OrderStruct → OrderBook → Prop where
  | empty : Processed [] OrderBook.empty
  | submit (orders : List OrderStruct) (book : OrderBook) (side : OrderSide)
      (id_field price_field quantity_field : Int) (kind : OrderKind) :
      Processed orders book →
      Processed
        (orders ++ [OrderStruct.construct side id_field price_field quantity_field kind])
        (book.submit
          (OrderStruct.construct side id_field price_field quantity_field kind)).book

/-- The position in the input `orders` at which the order with id `id` arrived. -/
def arrival (orders : List OrderStruct) (id : Int) : Nat :=
  (orders.map OrderStruct.id).indexOf id

/-- Within a vector `l` of the book, an order that stands in front of another order of the
same price arrived before it in the input `orders`. -/
def time_ordered (orders : List OrderStruct) (l : List OrderStruct) : Prop :=
  l.Pairwise (fun front back =>
    front.price = back.price → arrival orders front.id < arrival orders back.id)

/-- An input of two SELL orders at the same price 100: id 1 with quantity 10, then id 2
with quantity 5. -/
def queue_input : List OrderStruct :=
  [OrderStruct.construct OrderSide.SELL 1 100 10 OrderKind.LimitOrder,
   OrderStruct.construct OrderSide.SELL 2 100 5 OrderKind.LimitOrder]

/-- The book left by `queue_input`. -/
def queue_book : OrderBook :=
  ((OrderBook.empty.submit
      (OrderStruct.construct OrderSide.SELL 1 100 10 OrderKind.LimitOrder)).book.submit
    (OrderStruct.construct OrderSide.SELL 2 100 5 OrderKind.LimitOrder)).book

/-- A BUY order at price 100 with quantity 12, id 3. -/
def queue_taker : OrderStruct :=
  OrderStruct.construct OrderSide.BUY 3 100 12 OrderKind.LimitOrder

/-- Two orders agree in `side`, `id`, `price` and `quantity`; they may differ in the
subclass (`LimitOrder` or `IcebergOrder`) and in the peak. -/
def same_terms (a b : OrderStruct) : Prop :=
  a.side = b.side ∧ a.id = b.id ∧ a.price = b.price ∧ a.quantity = b.quantity

/-- The resting order of scenario C of the specification: an iceberg SELL order, id 4,
price 50, quantity 100, peak 10. -/
def scenario_iceberg_4 : OrderStruct :=
  OrderStruct.construct OrderSide.SELL 4 50 100 (OrderKind.IcebergOrder 10)

/-- The incoming order of scenario C of the specification: BUY, id 5, price 50,
quantity 100. -/
def scenario_buy_5 : OrderStruct :=
  OrderStruct.construct OrderSide.BUY 5 50 100 OrderKind.LimitOrder

/-- The book is not crossed: every resting buy order bids strictly less than every resting
sell order asks. -/
def OrderBook.uncrossed (book : OrderBook) : Prop :=
  ∀ b ∈ book.buy_orders, ∀ s ∈ book.sell_orders, b.price < s.price

/-! ## Reading an order from an input line (`OrderBook.cpp`, lines 20-49, 68-97, 129-142)

A line is embedded as its list of characters.  `std::istringstream`, `std::getline` and
`std::stoi` belong to the C++ standard library; they are embedded by what the C++ standard
specifies for them. -/

/-- The exceptions `std::stoi` throws: `std::invalid_argument` when no conversion can be
performed, `std::out_of_range` when the value does not fit into `int`.  The repository
catches neither, so an exception ends `OrderBook::process`. -/
inductive ParseError where
  | invalid_argument
  | out_of_range
  deriving DecidableEq

/-- The predicate `std::isspace` in the default locale: space, `\t`, `\n`, `\v`, `\f`,
`\r`. -/
def isspace (ch : Char) : Bool :=
  ch = Char.ofNat 32 || ch = Char.ofNat 9 || ch = Char.ofNat 10 || ch = Char.ofNat 11 ||
    ch = Char.ofNat 12 || ch = Char.ofNat 13

/-- The function `ltrim` (lines 21-25): erases the leading white space. -/
def ltrim (s : List Char) : List Char :=
  s.dropWhile isspace

/-- The function `rtrim` (lines 28-32): erases the trailing white space. -/
def rtrim (s : List Char) : List Char :=
  (s.reverse.dropWhile isspace).reverse

/-- The function `trim` (lines 35-38). -/
def trim (s : List Char) : List Char :=
  ltrim (rtrim s)

/-- The value of a run of decimal digits, most significant digit first. -/
def digits_value (digits : List Char) : Nat :=
  digits.foldl (fun acc ch => acc * 10 + (ch.toNat - 48)) 0

/-- The function `std::stoi(str)` with base 10: leading white space is skipped, an optional
sign is read, then as many decimal digits as there are; what follows them is ignored.
Without a digit the call throws `std::invalid_argument`; with a value outside the range of
`int` it throws `std::out_of_range`. -/
def stoi (str : List Char) : Except ParseError Int :=
  let s1 := str.dropWhile isspace
  let negative := s1.head? = some (Char.ofNat 45)
  let s2 := if s1.head? = some (Char.ofNat 45) ∨ s1.head? = some (Char.ofNat 43)
    then s1.tail else s1
  let digits := s2.takeWhile Char.isDigit
  if digits = [] then
    Except.error ParseError.invalid_argument
  else
    let value : Int := if negative then -(digits_value digits : Int) else digits_value digits
    if value < -2147483648 ∨ 2147483647 < value then
      Except.error ParseError.out_of_range
    else
      Except.ok value

/-- The state of a `std::istringstream`: the characters not yet read, and whether the
stream is still `good()` (neither `eofbit` nor `failbit` is set). -/
structure IStringStream where
  unread : List Char
  good : Bool
  deriving DecidableEq

/-- The characters in front of the first `delim`, and the characters behind it; `none` for
the latter when there is no `delim`. -/
def read_until (delim : Char) : List Char → List Char × Option (List Char)
  | [] => ([], none)
  | ch :: rest =>
    if ch = delim then ([], some rest)
    else ((ch :: (read_until delim rest).1), (read_until delim rest).2)

/-- The call `std::getline(iss, field, delim)`.  When the stream is not `good()` nothing is
read and `field` keeps its value.  Otherwise `field` is erased and receives the characters
in front of the next `delim`, which is read and dropped; when the end of the stream is
reached instead, `eofbit` is set and the stream is not `good()` any more. -/
def getline (iss : IStringStream) (field : List Char) (delim : Char) :
    IStringStream × List Char :=
  if iss.good then
    match read_until delim iss.unread with
    | (str, some rest) => (⟨rest, true⟩, str)
    | (str, none) => (⟨[], false⟩, str)
  else
    (iss, field)

/-- The constant `INPUT_SEPARATOR` (line 14). -/
def INPUT_SEPARATOR : Char := ','

/-- The side chosen at lines 74-79: SELL when the first character of the line is `S`, BUY
otherwise. -/
def side_of_line (line : List Char) : OrderSide :=
  if line.head? = some 'S' then OrderSide.SELL else OrderSide.BUY

/-- The constructor `OrderStruct::OrderStruct(line)` (lines 68-97) up to the values it
reads: the side and the results of the three calls of `std::stoi`, in the order of the
calls; an exception of `std::stoi` ends the constructor. -/
def OrderStruct.read_line (line : List Char) : Except ParseError (OrderSide × Int × Int × Int) :=
  let s0 : IStringStream := ⟨line, true⟩
  let s1 := getline s0 [] INPUT_SEPARATOR
  let side := side_of_line line
  let s2 := getline s1.1 s1.2 INPUT_SEPARATOR
  match stoi s2.2 with
  | Except.error e => Except.error e
  | Except.ok id_field =>
    let s3 := getline s2.1 s2.2 INPUT_SEPARATOR
    match stoi s3.2 with
    | Except.error e => Except.error e
    | Except.ok price_field =>
      let s4 := getline s3.1 s3.2 INPUT_SEPARATOR
      match stoi s4.2 with
      | Except.error e => Except.error e
      | Except.ok quantity_field => Except.ok (side, id_field, price_field, quantity_field)

/-- The constructor `LimitOrder::LimitOrder(line)` (line 151). -/
def LimitOrder.construct (line : List Char) : Except ParseError OrderStruct :=
  match OrderStruct.read_line line with
  | Except.error e => Except.error e
  | Except.ok (side, id_field, price_field, quantity_field) =>
    Except.ok (OrderStruct.construct side id_field price_field quantity_field
      OrderKind.LimitOrder)

/-- The constructor `IcebergOrder::IcebergOrder(line)` (lines 129-142): the base
constructor runs first; then the line is read again from its start, four fields are
skipped and the fifth is converted to the peak. -/
def IcebergOrder.construct (line : List Char) : Except ParseError OrderStruct :=
  match OrderStruct.read_line line with
  | Except.error e => Except.error e
  | Except.ok (side, id_field, price_field, quantity_field) =>
    let s0 : IStringStream := ⟨line, true⟩
    let s1 := getline s0 [] INPUT_SEPARATOR
    let s2 := getline s1.1 s1.2 INPUT_SEPARATOR
    let s3 := getline s2.1 s2.2 INPUT_SEPARATOR
    let s4 := getline s3.1 s3.2 INPUT_SEPARATOR
    let s5 := getline s4.1 s4.2 INPUT_SEPARATOR
    match stoi s5.2 with
    | Except.error e => Except.error e
    | Except.ok peak =>
      Except.ok (OrderStruct.construct side id_field price_field quantity_field
        (OrderKind.IcebergOrder peak))

/-- The function `order_from_string` (lines 41-49). -/
def order_from_string (line : List Char) : Except ParseError OrderStruct :=
  let number_of_fields := line.count INPUT_SEPARATOR + 1
  if number_of_fields = 4 then
    LimitOrder.construct line
  else
    IcebergOrder.construct line

/-- The treatment of one input line by `OrderBook::process` (lines 248-256): the line is
trimmed; an empty line and a line starting with `#` are skipped; otherwise the order is
constructed, matched and, with a positive quantity left, inserted.  The value is the book
after the line and the trade messages printed, or the exception that ends `process`. -/
def OrderBook.process_line (book : OrderBook) (line : List Char) :
    Except ParseError (OrderBook × List Trade) :=
  let line := trim line
  if line ≠ [] ∧ line.head? ≠ some '#' then
    match order_from_string line with
    | Except.error e => Except.error e
    | Except.ok incoming_order =>
      Except.ok ((book.submit incoming_order).book, (book.submit incoming_order).trades)
  else
    Except.ok (book, [])

end MatchingEngine

/-! ## Basic facts about the matching loop -/

namespace MatchingEngine

/-- The loop of `match_one_side` stops as soon as its condition fails. -/
theorem match_one_side_of_none {order_book : List OrderStruct} {incoming_order : OrderStruct}
    (h : match_step order_book incoming_order = none) :
    match_one_side order_book incoming_order = ⟨order_book, incoming_order, []⟩ := by
  rw [match_one_side]
  split
  · rfl
  · rename_i h2
    rw [h] at h2
    exact absurd h2 (by simp)

/-- When the loop condition holds, `match_one_side` prints the trade of this pass and
continues from the state the body leaves. -/
theorem match_one_side_of_some {order_book : List OrderStruct} {incoming_order : OrderStruct}
    {trade : Trade} {order_book1 : List OrderStruct} {incoming_order1 : OrderStruct}
    (h : match_step order_book incoming_order = some (trade, order_book1, incoming_order1)) :
    match_one_side order_book incoming_order =
      ⟨(match_one_side order_book1 incoming_order1).order_book,
       (match_one_side order_book1 incoming_order1).incoming_order,
       trade :: (match_one_side order_book1 incoming_order1).trades⟩ := by
  rw [match_one_side]
  split
  · rename_i h2
    rw [h] at h2
    exact absurd h2 (by simp)
  · rename_i t b1 i1 h2
    rw [h] at h2
    simp only [Option.some.injEq, Prod.mk.injEq] at h2
    obtain ⟨rfl, rfl, rfl⟩ := h2
    rfl

/-- What a pass that runs the loop body does, read off lines 215-230. -/
theorem match_step_some {order_book : List OrderStruct} {incoming_order : OrderStruct}
    {trade : Trade} {order_book1 : List OrderStruct} {incoming_order1 : OrderStruct}
    (h : match_step order_book incoming_order = some (trade, order_book1, incoming_order1)) :
    ∃ top_order rest, order_book = top_order :: rest ∧
      incoming_order.quantity > 0 ∧ is_trade_possible top_order incoming_order = true ∧
      trade = ⟨top_order.id, incoming_order.id, top_order.price,
        min incoming_order.quantity top_order.quantity⟩ ∧
      order_book1 =
        (if top_order.quantity - min incoming_order.quantity top_order.quantity ≤ 0 then rest
         else { top_order with
                quantity := top_order.quantity -
                  min incoming_order.quantity top_order.quantity } :: rest) ∧
      incoming_order1 = { incoming_order with
        quantity := incoming_order.quantity -
          min incoming_order.quantity top_order.quantity } := by
  cases order_book with
  | nil => simp [match_step] at h
  | cons top_order rest =>
    simp only [match_step] at h
    split at h
    · rename_i hcond
      simp only [Option.some.injEq, Prod.mk.injEq] at h
      obtain ⟨ht, hb, hi⟩ := h
      exact ⟨top_order, rest, rfl, hcond.1, hcond.2, ht.symm, hb.symm, hi.symm⟩
    · simp at h

/-- When the loop condition fails: the vector is empty, or the incoming order has no
quantity left, or the front order cannot trade. -/
theorem match_step_none {order_book : List OrderStruct} {incoming_order : OrderStruct}
    (h : match_step order_book incoming_order = none) :
    order_book = [] ∨ incoming_order.quantity ≤ 0 ∨
      ∃ top_order rest, order_book = top_order :: rest ∧
        is_trade_possible top_order incoming_order = false := by
  cases order_book with
  | nil => exact Or.inl rfl
  | cons top_order rest =>
    simp only [match_step] at h
    split at h
    · simp at h
    · rename_i hcond
      by_cases hq : incoming_order.quantity > 0
      · right; right
        refine ⟨top_order, rest, rfl, ?_⟩
        cases hp : is_trade_possible top_order incoming_order
        · rfl
        · exact absurd ⟨hq, hp⟩ hcond
      · right; left
        omega

/-- The loop body never changes a field of the incoming order other than `quantity`. -/
theorem match_step_incoming {order_book : List OrderStruct} {incoming_order : OrderStruct}
    {trade : Trade} {order_book1 : List OrderStruct} {incoming_order1 : OrderStruct}
    (h : match_step order_book incoming_order = some (trade, order_book1, incoming_order1)) :
    incoming_order1 = { incoming_order with quantity := incoming_order.quantity - trade.quantity } := by
  obtain ⟨top_order, rest, _, _, _, ht, _, hi⟩ := match_step_some h
  subst ht hi
  rfl

/-- The `k`-th trade message of `match_one_side` is the one printed by the loop body in the
state reached after `k` passes, from the front order of the vector in that state. -/
theorem match_one_side_trade_at (k : Nat) :
    ∀ (order_book : List OrderStruct) (incoming_order : OrderStruct) (trade : Trade),
      (match_one_side order_book incoming_order).trades[k]? = some trade →
      ∃ resting rest incoming_k,
        state_after k order_book incoming_order = some (resting :: rest, incoming_k) ∧
        incoming_k.quantity > 0 ∧ is_trade_possible resting incoming_k = true ∧
        incoming_k.id = incoming_order.id ∧ incoming_k.price = incoming_order.price ∧
        incoming_k.side = incoming_order.side ∧
        trade = ⟨resting.id, incoming_order.id, resting.price,
          min incoming_k.quantity resting.quantity⟩ := by
  induction k with
  | zero =>
    intro order_book incoming_order trade h
    cases hs : match_step order_book incoming_order with
    | none =>
      rw [match_one_side_of_none hs] at h
      simp at h
    | some r =>
      obtain ⟨t, b1, i1⟩ := r
      rw [match_one_side_of_some hs] at h
      simp only [List.getElem?_cons_zero, Option.some.injEq] at h
      subst h
      obtain ⟨top_order, rest, hb, hq, hp, ht, _, _⟩ := match_step_some hs
      exact ⟨top_order, rest, incoming_order, by simp [state_after, hb], hq, hp, rfl, rfl, rfl, ht⟩
  | succ k ih =>
    intro order_book incoming_order trade h
    cases hs : match_step order_book incoming_order with
    | none =>
      rw [match_one_side_of_none hs] at h
      simp at h
    | some r =>
      obtain ⟨t, b1, i1⟩ := r
      rw [match_one_side_of_some hs] at h
      simp only [List.getElem?_cons_succ] at h
      obtain ⟨resting, rest, incoming_k, hst, hq, hp, hid, hpr, hsd, ht⟩ := ih b1 i1 trade h
      have hi := match_step_incoming hs
      have hid1 : i1.id = incoming_order.id := by rw [hi]
      have hpr1 : i1.price = incoming_order.price := by rw [hi]
      have hsd1 : i1.side = incoming_order.side := by rw [hi]
      refine ⟨resting, rest, incoming_k, ?_, hq, hp, hid.trans hid1, hpr.trans hpr1,
        hsd.trans hsd1, ?_⟩
      · simp only [state_after, hs]
        exact hst
      · rw [ht, hid1]

/-- The trade messages of `OrderBook::match` are those of `match_one_side` on the opposite
vector. -/
theorem match_trades (book : OrderBook) (incoming_order : OrderStruct) :
    (book.match_ incoming_order).trades =
      (match_one_side (book.opposite incoming_order) incoming_order).trades := by
  unfold OrderBook.match_ OrderBook.opposite
  split <;> rfl

/-- The incoming order after `OrderBook::match` is the one `match_one_side` leaves. -/
theorem match_incoming (book : OrderBook) (incoming_order : OrderStruct) :
    (book.match_ incoming_order).incoming_order =
      (match_one_side (book.opposite incoming_order) incoming_order).incoming_order := by
  unfold OrderBook.match_ OrderBook.opposite
  split <;> rfl

/-- The book after `OrderBook::match`: the opposite vector is the one `match_one_side`
leaves. -/
theorem match_opposite (book : OrderBook) (incoming_order : OrderStruct) :
    (book.match_ incoming_order).book.opposite incoming_order =
      (match_one_side (book.opposite incoming_order) incoming_order).order_book := by
  unfold OrderBook.match_ OrderBook.opposite
  split
  · rename_i h
    simp [h]
  · rename_i h
    simp [h]

/-- The method `OrderBook::match` does not touch the vector of the incoming order's side. -/
theorem match_own_side (book : OrderBook) (incoming_order : OrderStruct) :
    (book.match_ incoming_order).book.own_side incoming_order =
      book.own_side incoming_order := by
  unfold OrderBook.match_ OrderBook.own_side
  cases hs : incoming_order.side <;> simp

/-! ### The four ways one pass of the loop can go -/

/-- An empty vector: the loop does not run. -/
theorem match_one_side_nil (incoming_order : OrderStruct) :
    match_one_side [] incoming_order = ⟨[], incoming_order, []⟩ :=
  match_one_side_of_none rfl

/-- The loop condition fails at the front order: nothing happens. -/
theorem match_one_side_stop (top_order : OrderStruct) (rest : List OrderStruct)
    (incoming_order : OrderStruct)
    (h : ¬ (incoming_order.quantity > 0 ∧ is_trade_possible top_order incoming_order = true)) :
    match_one_side (top_order :: rest) incoming_order =
      ⟨top_order :: rest, incoming_order, []⟩ := by
  apply match_one_side_of_none
  simp only [match_step]
  rw [if_neg h]

/-- The front order is filled completely (its quantity does not exceed the incoming
quantity): it is erased and the loop goes on with the rest of the vector. -/
theorem match_one_side_fill (top_order : OrderStruct) (rest : List OrderStruct)
    (incoming_order : OrderStruct) (hq : incoming_order.quantity > 0)
    (hp : is_trade_possible top_order incoming_order = true)
    (hle : top_order.quantity ≤ incoming_order.quantity) :
    match_one_side (top_order :: rest) incoming_order =
      ⟨(match_one_side rest { incoming_order with
          quantity := incoming_order.quantity - top_order.quantity }).order_book,
       (match_one_side rest { incoming_order with
          quantity := incoming_order.quantity - top_order.quantity }).incoming_order,
       ⟨top_order.id, incoming_order.id, top_order.price, top_order.quantity⟩ ::
       (match_one_side rest { incoming_order with
          quantity := incoming_order.quantity - top_order.quantity }).trades⟩ := by
  have hs : match_step (top_order :: rest) incoming_order =
      some (⟨top_order.id, incoming_order.id, top_order.price, top_order.quantity⟩, rest,
        { incoming_order with quantity := incoming_order.quantity - top_order.quantity }) := by
    simp only [match_step]
    rw [if_pos ⟨hq, hp⟩, min_eq_right hle]
    simp
  exact match_one_side_of_some hs

/-- The front order is filled partly (its quantity exceeds the incoming quantity): it stays
at the front with the difference, the incoming order is left with quantity `0`, and the
loop stops. -/
theorem match_one_side_part_fill (top_order : OrderStruct) (rest : List OrderStruct)
    (incoming_order : OrderStruct) (hq : incoming_order.quantity > 0)
    (hp : is_trade_possible top_order incoming_order = true)
    (hlt : incoming_order.quantity < top_order.quantity) :
    match_one_side (top_order :: rest) incoming_order =
      ⟨{ top_order with quantity := top_order.quantity - incoming_order.quantity } :: rest,
       { incoming_order with quantity := 0 },
       [⟨top_order.id, incoming_order.id, top_order.price, incoming_order.quantity⟩]⟩ := by
  have hs : match_step (top_order :: rest) incoming_order =
      some (⟨top_order.id, incoming_order.id, top_order.price, incoming_order.quantity⟩,
        { top_order with quantity := top_order.quantity - incoming_order.quantity } :: rest,
        { incoming_order with quantity := 0 }) := by
    simp only [match_step]
    rw [if_pos ⟨hq, hp⟩, min_eq_left (le_of_lt hlt)]
    have h2 : ¬ (top_order.quantity - incoming_order.quantity ≤ 0) := by omega
    simp [h2]
  rw [match_one_side_of_some hs]
  have hn : match_step
      ({ top_order with quantity := top_order.quantity - incoming_order.quantity } :: rest)
      { incoming_order with quantity := 0 } = none := by
    simp [match_step]
  rw [match_one_side_of_none hn]

/-- The predicate `is_trade_possible` reads only `side` and `price` of the incoming order. -/
theorem is_trade_possible_quantity (resting incoming_order : OrderStruct) (q : Int) :
    is_trade_possible resting { incoming_order with quantity := q } =
      is_trade_possible resting incoming_order := rfl

/-- The shape of every run of `match_one_side`.  The vector splits into a prefix `pre` of
orders that are filled completely and erased, one after the other from the front, and the
orders that stay.  Either the loop stops at an order it does not trade with (first case), or
the last trade fills the order behind `pre` partly and leaves the incoming order with
quantity `0` (second case). -/
theorem match_one_side_shape (order_book : List OrderStruct) :
    ∀ incoming_order : OrderStruct,
      (∃ pre,
        order_book = pre ++ (match_one_side order_book incoming_order).order_book ∧
        (∀ x ∈ pre, is_trade_possible x incoming_order = true) ∧
        (match_one_side order_book incoming_order).trades =
          pre.map (full_fill incoming_order.id) ∧
        (match_one_side order_book incoming_order).incoming_order =
          { incoming_order with
            quantity := incoming_order.quantity - total_quantity pre } ∧
        (pre = [] ∨ total_quantity pre ≤ incoming_order.quantity)) ∨
      (∃ pre top_order rest,
        order_book = pre ++ top_order :: rest ∧
        (∀ x ∈ pre, is_trade_possible x incoming_order = true) ∧
        is_trade_possible top_order incoming_order = true ∧
        0 < incoming_order.quantity - total_quantity pre ∧
        incoming_order.quantity - total_quantity pre < top_order.quantity ∧
        (match_one_side order_book incoming_order).order_book =
          { top_order with
            quantity := top_order.quantity -
              (incoming_order.quantity - total_quantity pre) } :: rest ∧
        (match_one_side order_book incoming_order).trades =
          pre.map (full_fill incoming_order.id) ++
            [⟨top_order.id, incoming_order.id, top_order.price,
              incoming_order.quantity - total_quantity pre⟩] ∧
        (match_one_side order_book incoming_order).incoming_order =
          { incoming_order with quantity := 0 }) := by
  induction order_book with
  | nil =>
    intro incoming_order
    left
    refine ⟨[], ?_, ?_, ?_, ?_, Or.inl rfl⟩ <;> simp [match_one_side_nil, total_quantity]
  | cons top_order rest ih =>
    intro incoming_order
    by_cases hcond :
        incoming_order.quantity > 0 ∧ is_trade_possible top_order incoming_order = true
    · obtain ⟨hq, hp⟩ := hcond
      by_cases hle : top_order.quantity ≤ incoming_order.quantity
      · rw [match_one_side_fill top_order rest incoming_order hq hp hle]
        rcases ih { incoming_order with
            quantity := incoming_order.quantity - top_order.quantity } with
          ⟨pre, hb, hall, ht, hi, hbound⟩ |
          ⟨pre, top2, rest2, hb, hall, hp2, h0, hlt, hb2, ht, hi⟩
        · left
          refine ⟨top_order :: pre, ?_, ?_, ?_, ?_, Or.inr ?_⟩
          · simp only [List.cons_append]
            rw [← hb]
          · intro x hx
            rcases List.mem_cons.mp hx with rfl | hx
            · exact hp
            · exact hall x hx
          · simp only [List.map_cons, ht, full_fill]
          · simp only [hi, total_quantity, List.map_cons, List.sum_cons]
            congr 1
            omega
          · rcases hbound with rfl | hbound
            · simp only [total_quantity, List.map_cons, List.map_nil, List.sum_cons,
                List.sum_nil]
              omega
            · simp only [total_quantity, List.map_cons, List.sum_cons] at hbound ⊢
              omega
        · right
          simp only [total_quantity] at h0 hlt hb2 ht
          have e : incoming_order.quantity - top_order.quantity -
              (List.map OrderStruct.quantity pre).sum =
              incoming_order.quantity -
                (top_order.quantity + (List.map OrderStruct.quantity pre).sum) := by omega
          refine ⟨top_order :: pre, top2, rest2, ?_, ?_, hp2, ?_, ?_, ?_, ?_, ?_⟩
          · simp only [List.cons_append]
            rw [← hb]
          · intro x hx
            rcases List.mem_cons.mp hx with rfl | hx
            · exact hp
            · exact hall x hx
          · simp only [total_quantity, List.map_cons, List.sum_cons]
            omega
          · simp only [total_quantity, List.map_cons, List.sum_cons]
            omega
          · simp only [hb2, total_quantity, List.map_cons, List.sum_cons, e]
          · simp only [ht, total_quantity, List.map_cons, List.sum_cons, full_fill,
              List.cons_append, e]
          · simp only [hi]
      · right
        have hlt : incoming_order.quantity < top_order.quantity := by omega
        rw [match_one_side_part_fill top_order rest incoming_order hq hp hlt]
        refine ⟨[], top_order, rest, ?_, ?_, hp, ?_, ?_, ?_, ?_, ?_⟩ <;>
          simp [total_quantity, hq, hlt]
    · left
      rw [match_one_side_stop top_order rest incoming_order hcond]
      refine ⟨[], ?_, ?_, ?_, ?_, Or.inl rfl⟩ <;> simp [total_quantity]

/-! ### The scenario of the specification -/

/-- The first order of scenario A, field by field. -/
theorem scenario_sell_1_eq :
    scenario_sell_1 = ⟨OrderSide.SELL, 1, 100, 10, 100, OrderKind.LimitOrder⟩ := by
  simp [scenario_sell_1, OrderStruct.construct, static_cast_short]

/-- The second order of scenario A, field by field. -/
theorem scenario_buy_2_eq :
    scenario_buy_2 = ⟨OrderSide.BUY, 2, 100, 4, -100, OrderKind.LimitOrder⟩ := by
  simp [scenario_buy_2, OrderStruct.construct, static_cast_short]

/-- Scenario A, first submission: no trade, the order rests as the only sell order. -/
theorem scenario_book_1_eq :
    scenario_book_1 = ⟨[⟨OrderSide.SELL, 1, 100, 10, 100, OrderKind.LimitOrder⟩], []⟩ := by
  simp [scenario_book_1, scenario_sell_1_eq, OrderBook.submit, OrderBook.match_,
    OrderBook.empty, match_one_side_nil, OrderBook.insert, insert_into, upper_bound]

/-- The third order of the scenario, field by field. -/
theorem scenario_buy_9_eq :
    scenario_buy_9 = ⟨OrderSide.BUY, 9, 99, 5, -99, OrderKind.LimitOrder⟩ := by
  simp [scenario_buy_9, OrderStruct.construct, static_cast_short]

/-- Scenario A, second submission: the BUY order is filled and does not rest, the SELL
order stays with quantity 6. -/
theorem scenario_book_2_eq :
    scenario_book_2 = ⟨[⟨OrderSide.SELL, 1, 100, 6, 100, OrderKind.LimitOrder⟩], []⟩ := by
  simp [scenario_book_2, scenario_book_1_eq, scenario_buy_2_eq, OrderBook.submit,
    OrderBook.match_, match_one_side, match_step, is_trade_possible]

/-- The books of the scenario are books `OrderBook::process` can hold. -/
theorem scenario_reachable :
    Reachable scenario_book_1 ∧ Reachable scenario_book_2 ∧ Reachable scenario_book_3 := by
  have h1 : Reachable scenario_book_1 :=
    Reachable.submit OrderBook.empty OrderSide.SELL 1 100 10 OrderKind.LimitOrder
      Reachable.empty
  have h2 : Reachable scenario_book_2 :=
    Reachable.submit scenario_book_1 OrderSide.BUY 2 100 4 OrderKind.LimitOrder h1
  exact ⟨h1, h2,
    Reachable.submit scenario_book_2 OrderSide.BUY 9 99 5 OrderKind.LimitOrder h2⟩

/-! ## Trade records -/

/-- Claim C1. Every trade message printed by `OrderBook::match` is
`(resting.id, incoming.id, resting.price, min(incoming.quantity, resting.quantity))`, where
`resting` is the front order of the opposite vector in the loop state in which the message
is printed (the state after `k` passes for the `k`-th message, counted from 0) and the
quantities are those of that state; the loop condition holds in that state.  In particular
the trade price is the price of the resting order: a resting SELL id 1 at price 100 with
quantity 6 hit by a BUY id 3 at price 101 with quantity 6 gives the single trade
`(1, 3, 100, 6)`. -/
theorem match_trade_record (book : OrderBook) (incoming_order : OrderStruct) (k : Nat)
    (trade : Trade) (h : (book.match_ incoming_order).trades[k]? = some trade) :
    (∃ resting rest incoming_k,
      state_after k (book.opposite incoming_order) incoming_order
        = some (resting :: rest, incoming_k) ∧
      incoming_k.quantity > 0 ∧ is_trade_possible resting incoming_k = true ∧
      trade = ⟨resting.id, incoming_order.id, resting.price,
        min incoming_k.quantity resting.quantity⟩ ∧
      trade.price = resting.price) ∧
    (OrderBook.match_ ⟨[⟨OrderSide.SELL, 1, 100, 6, 100, OrderKind.LimitOrder⟩], []⟩
        ⟨OrderSide.BUY, 3, 101, 6, -101, OrderKind.LimitOrder⟩).trades = [⟨1, 3, 100, 6⟩] := by
  constructor
  · rw [match_trades] at h
    obtain ⟨resting, rest, incoming_k, hst, hq, hp, _, _, _, ht⟩ :=
      match_one_side_trade_at k _ _ _ h
    exact ⟨resting, rest, incoming_k, hst, hq, hp, ht, by rw [ht]⟩
  · simp [OrderBook.match_, match_one_side, match_step, is_trade_possible]

/-- The trade of scenario A of the specification, as an instance of `match_trade_record`:
a resting SELL id 1 at price 100 with quantity 10 hit by a BUY id 2 at price 100 with
quantity 4. -/
theorem match_trade_record_witness :
    (OrderBook.match_ ⟨[⟨OrderSide.SELL, 1, 100, 10, 100, OrderKind.LimitOrder⟩], []⟩
        ⟨OrderSide.BUY, 2, 100, 4, -100, OrderKind.LimitOrder⟩).trades[0]?
      = some ⟨1, 2, 100, 4⟩ ∧
    ((∃ resting rest incoming_k,
      state_after 0
        (OrderBook.opposite ⟨[⟨OrderSide.SELL, 1, 100, 10, 100, OrderKind.LimitOrder⟩], []⟩
          ⟨OrderSide.BUY, 2, 100, 4, -100, OrderKind.LimitOrder⟩)
        ⟨OrderSide.BUY, 2, 100, 4, -100, OrderKind.LimitOrder⟩
        = some (resting :: rest, incoming_k) ∧
      incoming_k.quantity > 0 ∧ is_trade_possible resting incoming_k = true ∧
      (⟨1, 2, 100, 4⟩ : Trade) = ⟨resting.id, 2, resting.price,
        min incoming_k.quantity resting.quantity⟩ ∧
      (100 : Int) = resting.price) ∧
    (OrderBook.match_ ⟨[⟨OrderSide.SELL, 1, 100, 6, 100, OrderKind.LimitOrder⟩], []⟩
        ⟨OrderSide.BUY, 3, 101, 6, -101, OrderKind.LimitOrder⟩).trades = [⟨1, 3, 100, 6⟩]) :=
  ⟨by simp [OrderBook.match_, match_one_side, match_step, is_trade_possible],
   match_trade_record _ _ 0 _
     (by simp [OrderBook.match_, match_one_side, match_step, is_trade_possible])⟩

/-! ## Quantity conservation -/

/-- The trades that fill a list of orders completely add up to the quantities of these
orders. -/
theorem traded_total_full_fill (incoming_id : Int) (pre : List OrderStruct) :
    traded_total (pre.map (full_fill incoming_id)) = total_quantity pre := by
  induction pre with
  | nil => rfl
  | cons x pre ih =>
    simp only [traded_total, total_quantity, List.map_cons, List.sum_cons, full_fill] at ih ⊢
    rw [ih]

/-- The sum of the quantities of two runs of trade messages. -/
theorem traded_total_append (a b : List Trade) :
    traded_total (a ++ b) = traded_total a + traded_total b := by
  simp [traded_total]

/-- The function `match_one_side` takes from the incoming order exactly what it trades. -/
theorem match_one_side_conserves (order_book : List OrderStruct) (incoming_order : OrderStruct) :
    incoming_order.quantity =
      (match_one_side order_book incoming_order).incoming_order.quantity +
        traded_total (match_one_side order_book incoming_order).trades := by
  rcases match_one_side_shape order_book incoming_order with
    ⟨pre, _, _, ht, hi, _⟩ | ⟨pre, top_order, rest, _, _, _, _, _, _, ht, hi⟩
  · rw [ht, hi, traded_total_full_fill]
    simp
  · rw [ht, hi, traded_total_append, traded_total_full_fill]
    simp [traded_total]

/-- The method `OrderBook::process` hands to `insert` the order as `match` left it, and
prints no trade message of its own. -/
theorem submit_incoming_trades (book : OrderBook) (incoming_order : OrderStruct) :
    (book.submit incoming_order).incoming_order = (book.match_ incoming_order).incoming_order ∧
    (book.submit incoming_order).trades = (book.match_ incoming_order).trades := by
  unfold OrderBook.submit
  simp only []
  split <;> exact ⟨rfl, rfl⟩

/-- Claim C2. For every book and every incoming order, the quantity of the incoming order
before a submission (`match`, then `insert` if a positive quantity remains) is its quantity
after the submission plus the sum of the quantities of the trades the submission emits. -/
theorem submit_conserves_incoming_quantity (book : OrderBook) (incoming_order : OrderStruct) :
    incoming_order.quantity =
      (book.submit incoming_order).incoming_order.quantity +
        traded_total (book.submit incoming_order).trades := by
  obtain ⟨hi, ht⟩ := submit_incoming_trades book incoming_order
  rw [hi, ht, match_incoming, match_trades]
  exact match_one_side_conserves _ _

/-- The quantity looked up by id, one order at a time. -/
theorem quantity_of_cons (x : OrderStruct) (l : List OrderStruct) (id : Int) :
    quantity_of (x :: l) id = if x.id = id then x.quantity else quantity_of l id := by
  unfold quantity_of
  by_cases h : x.id = id
  · simp [List.find?_cons, h]
  · simp [List.find?_cons, h]

/-- An id that no order of the list carries has quantity `0`. -/
theorem quantity_of_not_mem (l : List OrderStruct) (id : Int)
    (h : ∀ x ∈ l, x.id ≠ id) : quantity_of l id = 0 := by
  induction l with
  | nil => rfl
  | cons x l ih =>
    rw [quantity_of_cons, if_neg (h x (List.mem_cons_self _ _))]
    exact ih (fun y hy => h y (List.mem_cons_of_mem _ hy))

/-- With unique ids, the quantity looked up by the id of an order of the list is the
quantity of that order. -/
theorem quantity_of_mem (l : List OrderStruct) (r : OrderStruct)
    (hn : (l.map OrderStruct.id).Nodup) (hr : r ∈ l) : quantity_of l r.id = r.quantity := by
  induction l with
  | nil => simp at hr
  | cons x l ih =>
    rw [List.map_cons, List.nodup_cons] at hn
    rw [quantity_of_cons]
    rcases List.mem_cons.mp hr with rfl | hr
    · simp
    · have hne : x.id ≠ r.id := by
        intro he
        exact hn.1 (he ▸ List.mem_map_of_mem OrderStruct.id hr)
      rw [if_neg hne]
      exact ih hn.2 hr

/-- The traded quantity of an id, one trade message at a time. -/
theorem traded_with_cons (t : Trade) (ts : List Trade) (id : Int) :
    traded_with (t :: ts) id =
      if t.resting_id = id then t.quantity + traded_with ts id else traded_with ts id := by
  unfold traded_with traded_total
  by_cases h : t.resting_id = id
  · simp [List.filter_cons, h]
  · simp [List.filter_cons, h]

/-- The traded quantity of an id over two runs of trade messages. -/
theorem traded_with_append (a b : List Trade) (id : Int) :
    traded_with (a ++ b) id = traded_with a id + traded_with b id := by
  simp [traded_with, traded_total]

/-- Orders that are filled completely contribute nothing to an id none of them carries. -/
theorem traded_with_full_fill_not_mem (incoming_id : Int) (pre : List OrderStruct) (id : Int)
    (h : ∀ x ∈ pre, x.id ≠ id) : traded_with (pre.map (full_fill incoming_id)) id = 0 := by
  induction pre with
  | nil => rfl
  | cons x pre ih =>
    rw [List.map_cons, traded_with_cons]
    have hx : (full_fill incoming_id x).resting_id ≠ id := h x (List.mem_cons_self _ _)
    rw [if_neg hx]
    exact ih (fun y hy => h y (List.mem_cons_of_mem _ hy))

/-- With unique ids, an order that is filled completely trades exactly its quantity. -/
theorem traded_with_full_fill_mem (incoming_id : Int) (pre : List OrderStruct)
    (r : OrderStruct) (hn : (pre.map OrderStruct.id).Nodup) (hr : r ∈ pre) :
    traded_with (pre.map (full_fill incoming_id)) r.id = r.quantity := by
  induction pre with
  | nil => simp at hr
  | cons x pre ih =>
    rw [List.map_cons, List.nodup_cons] at hn
    rw [List.map_cons, traded_with_cons]
    rcases List.mem_cons.mp hr with rfl | hr
    · have hx : (full_fill incoming_id r).resting_id = r.id := rfl
      rw [if_pos hx, traded_with_full_fill_not_mem]
      · simp [full_fill]
      · intro y hy he
        exact hn.1 (he ▸ List.mem_map_of_mem OrderStruct.id hy)
    · have hne : (full_fill incoming_id x).resting_id ≠ r.id := by
        intro he
        exact hn.1 ((show x.id = r.id from he) ▸ List.mem_map_of_mem OrderStruct.id hr)
      rw [if_neg hne]
      exact ih hn.2 hr

/-- With unique ids in the vector, every order of the vector keeps in `match_one_side` what
it does not trade: its quantity before is its quantity after (`0` when it was erased) plus
the quantities of the trades that carry its id. -/
theorem match_one_side_resting_conserved (order_book : List OrderStruct)
    (incoming_order : OrderStruct) (hn : (order_book.map OrderStruct.id).Nodup)
    (r : OrderStruct) (hr : r ∈ order_book) :
    r.quantity =
      quantity_of (match_one_side order_book incoming_order).order_book r.id +
        traded_with (match_one_side order_book incoming_order).trades r.id := by
  rcases match_one_side_shape order_book incoming_order with
    ⟨pre, hb, _, ht, _, _⟩ | ⟨pre, top_order, rest, hb, _, _, _, _, hb2, ht, _⟩
  · rw [ht]
    generalize (match_one_side order_book incoming_order).order_book = kept at hb ⊢
    subst hb
    rw [List.map_append, List.nodup_append] at hn
    obtain ⟨hpre, hkept, hdis⟩ := hn
    rcases List.mem_append.mp hr with hr | hr
    · rw [traded_with_full_fill_mem _ _ _ hpre hr, quantity_of_not_mem]
      · simp
      · intro y hy he
        exact hdis (List.mem_map_of_mem OrderStruct.id hr)
          (he ▸ List.mem_map_of_mem OrderStruct.id hy)
    · rw [quantity_of_mem _ _ hkept hr, traded_with_full_fill_not_mem]
      · simp
      · intro y hy he
        exact hdis (List.mem_map_of_mem OrderStruct.id hy)
          (he ▸ List.mem_map_of_mem OrderStruct.id hr)
  · rw [ht, hb2]
    subst hb
    rw [List.map_append, List.nodup_append, List.map_cons, List.nodup_cons] at hn
    obtain ⟨hpre, ⟨htop, hrest⟩, hdis⟩ := hn
    rw [traded_with_append, quantity_of_cons, traded_with_cons]
    simp only [traded_with, traded_total, List.filter_nil, List.map_nil, List.sum_nil,
      add_zero]
    rcases List.mem_append.mp hr with hr | hr
    · have hne : top_order.id ≠ r.id := by
        intro he
        exact hdis (List.mem_map_of_mem OrderStruct.id hr)
          (he ▸ List.mem_cons_self _ _)
      have h1 := traded_with_full_fill_mem incoming_order.id pre r hpre hr
      simp only [traded_with, traded_total] at h1
      rw [if_neg hne, if_neg hne, h1, quantity_of_not_mem]
      · simp
      · intro y hy he
        exact hdis (List.mem_map_of_mem OrderStruct.id hr)
          (he ▸ List.mem_cons_of_mem _ (List.mem_map_of_mem OrderStruct.id hy))
    · have h0 : ∀ y ∈ pre, y.id ≠ r.id := by
        intro y hy he
        exact hdis (List.mem_map_of_mem OrderStruct.id hy)
          (he ▸ List.mem_map_of_mem OrderStruct.id hr)
      have h1 := traded_with_full_fill_not_mem incoming_order.id pre r.id h0
      simp only [traded_with, traded_total] at h1
      rw [h1]
      rcases List.mem_cons.mp hr with rfl | hr
      · simp
      · have hne : top_order.id ≠ r.id := by
          intro he
          exact htop (he ▸ List.mem_map_of_mem OrderStruct.id hr)
        rw [if_neg hne, if_neg hne, quantity_of_mem _ _ hrest hr]
        simp

/-- Claim C3. For every book whose opposite vector has unique ids and every incoming order,
each resting order of the opposite side has, before `OrderBook::match`, the quantity it has
after the call (taken as `0` when it was erased) plus the sum of the quantities of the
trades of the call that carry its id; and the vector of the incoming order's own side is
left as it was, so every resting order there keeps its quantity. -/
theorem match_conserves_resting_quantity (book : OrderBook) (incoming_order : OrderStruct)
    (hn : ((book.opposite incoming_order).map OrderStruct.id).Nodup) :
    (∀ r ∈ book.opposite incoming_order,
      r.quantity =
        quantity_of ((book.match_ incoming_order).book.opposite incoming_order) r.id +
          traded_with (book.match_ incoming_order).trades r.id) ∧
    (book.match_ incoming_order).book.own_side incoming_order =
      book.own_side incoming_order := by
  refine ⟨?_, match_own_side book incoming_order⟩
  intro r hr
  rw [match_opposite, match_trades]
  exact match_one_side_resting_conserved _ _ hn r hr

/-- Scenario A of the specification as an instance of `match_conserves_resting_quantity`:
the book holding the SELL order id 1 and the incoming BUY order id 2. -/
theorem match_conserves_resting_quantity_witness :
    ((scenario_book_1.opposite scenario_buy_2).map OrderStruct.id).Nodup ∧
    ((∀ r ∈ scenario_book_1.opposite scenario_buy_2,
      r.quantity =
        quantity_of ((scenario_book_1.match_ scenario_buy_2).book.opposite scenario_buy_2) r.id +
          traded_with (scenario_book_1.match_ scenario_buy_2).trades r.id) ∧
    (scenario_book_1.match_ scenario_buy_2).book.own_side scenario_buy_2 =
      scenario_book_1.own_side scenario_buy_2) :=
  ⟨by simp [scenario_book_1_eq, scenario_buy_2_eq, OrderBook.opposite],
   match_conserves_resting_quantity scenario_book_1 scenario_buy_2
     (by simp [scenario_book_1_eq, scenario_buy_2_eq, OrderBook.opposite])⟩

/-! ## Insertion -/

/-- The position found by `upper_bound`, one order at a time. -/
theorem upper_bound_cons (x : OrderStruct) (l : List OrderStruct) (o : OrderStruct) :
    upper_bound (x :: l) o = if o.compare_by < x.compare_by then 0 else upper_bound l o + 1 := by
  unfold upper_bound
  by_cases h : o.compare_by < x.compare_by
  · simp [List.takeWhile_cons, h]
  · simp [List.takeWhile_cons, h]

/-- The method `insert_into`, one order at a time: the new order goes in front of the first
order with a strictly greater key. -/
theorem insert_into_cons (x : OrderStruct) (l : List OrderStruct) (o : OrderStruct) :
    insert_into (x :: l) o =
      if o.compare_by < x.compare_by then o :: x :: l else x :: insert_into l o := by
  unfold insert_into
  simp only [upper_bound_cons]
  by_cases h : o.compare_by < x.compare_by
  · simp [h]
  · simp [h]

/-- Inserting into an empty vector. -/
theorem insert_into_nil (o : OrderStruct) : insert_into [] o = [o] := by
  simp [insert_into, upper_bound]

/-- The method `insert_into` adds the new order and nothing else, wherever it puts it. -/
theorem insert_into_split_any (l : List OrderStruct) (o : OrderStruct) :
    ∃ pre post, l = pre ++ post ∧ insert_into l o = pre ++ o :: post ∧
      (∀ x ∈ pre, x.compare_by ≤ o.compare_by) := by
  induction l with
  | nil => exact ⟨[], [], rfl, insert_into_nil o, by simp⟩
  | cons x l ih =>
    rw [insert_into_cons]
    by_cases h : o.compare_by < x.compare_by
    · rw [if_pos h]
      exact ⟨[], x :: l, rfl, rfl, by simp⟩
    · rw [if_neg h]
      obtain ⟨pre, post, hl, hins, hpre⟩ := ih
      refine ⟨x :: pre, post, by rw [hl]; rfl, by rw [hins]; rfl, ?_⟩
      intro y hy
      rcases List.mem_cons.mp hy with rfl | hy
      · omega
      · exact hpre y hy

/-- In a sorted vector `insert_into` puts the new order behind every order with a key less
than or equal to its own and in front of every order with a strictly greater key. -/
theorem insert_into_split (l : List OrderStruct) (o : OrderStruct) (hs : sorted_by_key l) :
    ∃ pre post, l = pre ++ post ∧ insert_into l o = pre ++ o :: post ∧
      (∀ x ∈ pre, x.compare_by ≤ o.compare_by) ∧
      (∀ x ∈ post, o.compare_by < x.compare_by) := by
  induction l with
  | nil => exact ⟨[], [], rfl, insert_into_nil o, by simp, by simp⟩
  | cons x l ih =>
    unfold sorted_by_key at hs ih
    rw [List.pairwise_cons] at hs
    rw [insert_into_cons]
    by_cases h : o.compare_by < x.compare_by
    · rw [if_pos h]
      refine ⟨[], x :: l, rfl, rfl, by simp, ?_⟩
      intro y hy
      rcases List.mem_cons.mp hy with rfl | hy
      · exact h
      · have := hs.1 y hy
        omega
    · rw [if_neg h]
      obtain ⟨pre, post, hl, hins, hpre, hpost⟩ := ih hs.2
      refine ⟨x :: pre, post, by rw [hl]; rfl, by rw [hins]; rfl, ?_, hpost⟩
      intro y hy
      rcases List.mem_cons.mp hy with rfl | hy
      · omega
      · exact hpre y hy

/-- The orders of the vector after `insert_into`: the new one and the old ones. -/
theorem mem_insert_into (l : List OrderStruct) (o x : OrderStruct) :
    x ∈ insert_into l o ↔ x = o ∨ x ∈ l := by
  obtain ⟨pre, post, hl, hins, _⟩ := insert_into_split_any l o
  rw [hins, hl]
  simp only [List.mem_append, List.mem_cons]
  tauto

/-- The method `insert_into` keeps a sorted vector sorted. -/
theorem insert_into_sorted (l : List OrderStruct) (o : OrderStruct) (hs : sorted_by_key l) :
    sorted_by_key (insert_into l o) := by
  obtain ⟨pre, post, hl, hins, hpre, hpost⟩ := insert_into_split l o hs
  unfold sorted_by_key at hs ⊢
  rw [hl, List.pairwise_append] at hs
  rw [hins, List.pairwise_append, List.pairwise_cons]
  refine ⟨hs.1, ⟨fun y hy => le_of_lt (hpost y hy), hs.2.1⟩, ?_⟩
  intro a ha b hb
  rcases List.mem_cons.mp hb with rfl | hb
  · exact hpre a ha
  · exact hs.2.2 a ha b hb

/-- The vector `OrderBook::insert` changes is the one of the order's side, by
`insert_into`. -/
theorem insert_own_side (book : OrderBook) (order : OrderStruct) :
    (book.insert order).own_side order = insert_into (book.own_side order) order := by
  unfold OrderBook.insert OrderBook.own_side
  by_cases h : order.side = OrderSide.SELL
  · simp [h]
  · simp [h]

/-- The method `OrderBook::insert` leaves the vector of the other side as it was. -/
theorem insert_opposite (book : OrderBook) (order : OrderStruct) :
    (book.insert order).opposite order = book.opposite order := by
  unfold OrderBook.insert OrderBook.opposite
  cases h : order.side <;> simp

/-- Claim C5. For every book whose vector on the side of `order` is sorted by `compare_by`,
`OrderBook::insert` turns that vector `pre ++ post` into `pre ++ order :: post`, where every
order of `pre` has a key less than or equal to the key of `order` and every order of `post`
a strictly greater one (the upper bound of the equal keys); the orders already there are
kept as they were and in their order; the vector of the other side is unchanged; the
resulting vector is sorted again.  The method returns the book only: it prints no trade. -/
theorem insert_at_upper_bound (book : OrderBook) (order : OrderStruct)
    (hs : sorted_by_key (book.own_side order)) :
    (∃ pre post,
      book.own_side order = pre ++ post ∧
      (book.insert order).own_side order = pre ++ order :: post ∧
      (∀ x ∈ pre, x.compare_by ≤ order.compare_by) ∧
      (∀ x ∈ post, order.compare_by < x.compare_by)) ∧
    (book.insert order).opposite order = book.opposite order ∧
    sorted_by_key ((book.insert order).own_side order) := by
  rw [insert_own_side]
  exact ⟨insert_into_split _ _ hs, insert_opposite book order, insert_into_sorted _ _ hs⟩

/-- An instance of `insert_at_upper_bound`: a SELL order at price 100 inserted into a
sorted vector that holds two SELL orders at 100 and one at 101 goes behind the two and in
front of the third. -/
theorem insert_at_upper_bound_witness :
    sorted_by_key (tie_book.own_side tie_order) ∧
    ((∃ pre post,
      tie_book.own_side tie_order = pre ++ post ∧
      (tie_book.insert tie_order).own_side tie_order = pre ++ tie_order :: post ∧
      (∀ x ∈ pre, x.compare_by ≤ tie_order.compare_by) ∧
      (∀ x ∈ post, tie_order.compare_by < x.compare_by)) ∧
    (tie_book.insert tie_order).opposite tie_order = tie_book.opposite tie_order ∧
    sorted_by_key ((tie_book.insert tie_order).own_side tie_order)) ∧
    ((tie_book.insert tie_order).sell_orders.map OrderStruct.id = [1, 2, 4, 3]) :=
  ⟨by simp [sorted_by_key, tie_book, tie_order, OrderBook.own_side],
   insert_at_upper_bound tie_book tie_order
     (by simp [sorted_by_key, tie_book, tie_order, OrderBook.own_side]),
   by simp [tie_book, tie_order, OrderBook.insert, insert_into, upper_bound,
     List.takeWhile]⟩

/-! ## The book between two submissions -/

/-- The function `match_one_side` changes no field of the incoming order but `quantity`. -/
theorem match_one_side_incoming_fields (order_book : List OrderStruct)
    (incoming_order : OrderStruct) :
    (match_one_side order_book incoming_order).incoming_order =
      { incoming_order with
        quantity := (match_one_side order_book incoming_order).incoming_order.quantity } := by
  rcases match_one_side_shape order_book incoming_order with
    ⟨pre, _, _, _, hi, _⟩ | ⟨pre, top_order, rest, _, _, _, _, _, _, _, hi⟩
  · rw [hi]
  · rw [hi]

/-- A property of orders that survives a reduction of the quantity to a positive value
holds for every order `match_one_side` leaves in the vector, if it held for every order
before. -/
theorem match_one_side_keeps (P : OrderStruct → Prop)
    (hP : ∀ (o : OrderStruct) (q : Int), P o → 0 < q → P { o with quantity := q })
    (order_book : List OrderStruct) (incoming_order : OrderStruct)
    (h : ∀ x ∈ order_book, P x) :
    ∀ x ∈ (match_one_side order_book incoming_order).order_book, P x := by
  rcases match_one_side_shape order_book incoming_order with
    ⟨pre, hb, _, _, _⟩ | ⟨pre, top_order, rest, hb, _, _, _, hlt, hb2, _, _⟩
  · intro x hx
    apply h
    rw [hb]
    exact List.mem_append_right _ hx
  · intro x hx
    rw [hb2] at hx
    rcases List.mem_cons.mp hx with rfl | hx
    · apply hP
      · apply h
        rw [hb]
        exact List.mem_append_right _ (List.mem_cons_self _ _)
      · omega
    · apply h
      rw [hb]
      exact List.mem_append_right _ (List.mem_cons_of_mem _ hx)

/-- The function `match_one_side` keeps a sorted vector sorted. -/
theorem match_one_side_sorted (order_book : List OrderStruct) (incoming_order : OrderStruct)
    (hs : sorted_by_key order_book) :
    sorted_by_key (match_one_side order_book incoming_order).order_book := by
  unfold sorted_by_key at hs ⊢
  rcases match_one_side_shape order_book incoming_order with
    ⟨pre, hb, _, _, _⟩ | ⟨pre, top_order, rest, hb, _, _, _, _, hb2, _, _⟩
  · rw [hb, List.pairwise_append] at hs
    exact hs.2.1
  · rw [hb, List.pairwise_append, List.pairwise_cons] at hs
    rw [hb2, List.pairwise_cons]
    exact ⟨hs.2.1.1, hs.2.1.2⟩

/-- The book after the submission of a BUY order. -/
theorem submit_book_buy (book : OrderBook) (incoming_order : OrderStruct)
    (hside : incoming_order.side = OrderSide.BUY) :
    (book.submit incoming_order).book.sell_orders =
      (match_one_side book.sell_orders incoming_order).order_book ∧
    (book.submit incoming_order).book.buy_orders =
      (if (match_one_side book.sell_orders incoming_order).incoming_order.quantity > 0 then
        insert_into book.buy_orders
          (match_one_side book.sell_orders incoming_order).incoming_order
       else book.buy_orders) ∧
    (book.submit incoming_order).incoming_order =
      (match_one_side book.sell_orders incoming_order).incoming_order ∧
    (book.submit incoming_order).trades =
      (match_one_side book.sell_orders incoming_order).trades := by
  have hf := match_one_side_incoming_fields book.sell_orders incoming_order
  have hs : (match_one_side book.sell_orders incoming_order).incoming_order.side
      = OrderSide.BUY := by
    rw [hf]
    exact hside
  unfold OrderBook.submit OrderBook.match_
  simp only [hside, if_true]
  split
  · simp [OrderBook.insert, hs]
  · simp

/-- The book after the submission of a SELL order. -/
theorem submit_book_sell (book : OrderBook) (incoming_order : OrderStruct)
    (hside : incoming_order.side = OrderSide.SELL) :
    (book.submit incoming_order).book.buy_orders =
      (match_one_side book.buy_orders incoming_order).order_book ∧
    (book.submit incoming_order).book.sell_orders =
      (if (match_one_side book.buy_orders incoming_order).incoming_order.quantity > 0 then
        insert_into book.sell_orders
          (match_one_side book.buy_orders incoming_order).incoming_order
       else book.sell_orders) ∧
    (book.submit incoming_order).incoming_order =
      (match_one_side book.buy_orders incoming_order).incoming_order ∧
    (book.submit incoming_order).trades =
      (match_one_side book.buy_orders incoming_order).trades := by
  have hf := match_one_side_incoming_fields book.buy_orders incoming_order
  have hs : (match_one_side book.buy_orders incoming_order).incoming_order.side
      = OrderSide.SELL := by
    rw [hf]
    exact hside
  have hne : ¬ (OrderSide.SELL = OrderSide.BUY) := by decide
  unfold OrderBook.submit OrderBook.match_
  simp only [hside, hne, if_false]
  split
  · simp [OrderBook.insert, hs]
  · simp

/-- A submission of an order that carries the key of its side keeps the invariant of the
book. -/
theorem submit_invariant (book : OrderBook) (incoming_order : OrderStruct)
    (hinv : book.invariant)
    (hkey : incoming_order.compare_by =
      if incoming_order.side = OrderSide.SELL then incoming_order.price
      else -incoming_order.price) :
    (book.submit incoming_order).book.invariant := by
  obtain ⟨hsell, hbuy, hss, hsb⟩ := hinv
  unfold OrderBook.invariant
  cases hside : incoming_order.side with
  | BUY =>
    obtain ⟨e1, e2, _, _⟩ := submit_book_buy book incoming_order hside
    have hf := match_one_side_incoming_fields book.sell_orders incoming_order
    rw [e1, e2]
    refine ⟨?_, ?_, match_one_side_sorted _ _ hss, ?_⟩
    · exact match_one_side_keeps
        (fun r => r.side = OrderSide.SELL ∧ r.compare_by = r.price ∧ 0 < r.quantity)
        (fun o q ho hq => ⟨ho.1, ho.2.1, hq⟩) _ _ hsell
    · split
      · rename_i hq
        intro r hr
        rcases (mem_insert_into _ _ _).mp hr with rfl | hr
        · refine ⟨?_, ?_, hq⟩
          · rw [hf]; exact hside
          · rw [hf]
            simp only [hkey, hside]
            simp
        · exact hbuy r hr
      · exact hbuy
    · split
      · exact insert_into_sorted _ _ hsb
      · exact hsb
  | SELL =>
    obtain ⟨e1, e2, _, _⟩ := submit_book_sell book incoming_order hside
    have hf := match_one_side_incoming_fields book.buy_orders incoming_order
    rw [e1, e2]
    refine ⟨?_, ?_, ?_, match_one_side_sorted _ _ hsb⟩
    · split
      · rename_i hq
        intro r hr
        rcases (mem_insert_into _ _ _).mp hr with rfl | hr
        · refine ⟨?_, ?_, hq⟩
          · rw [hf]; exact hside
          · rw [hf]
            simp only [hkey, hside]
            simp
        · exact hsell r hr
      · exact hsell
    · exact match_one_side_keeps
        (fun r => r.side = OrderSide.BUY ∧ r.compare_by = -r.price ∧ 0 < r.quantity)
        (fun o q ho hq => ⟨ho.1, ho.2.1, hq⟩) _ _ hbuy
    · split
      · exact insert_into_sorted _ _ hss
      · exact hss

/-- The constructor gives every order the key of its side. -/
theorem construct_key (side : OrderSide) (id_field price_field quantity_field : Int)
    (kind : OrderKind) :
    (OrderStruct.construct side id_field price_field quantity_field kind).compare_by =
      if (OrderStruct.construct side id_field price_field quantity_field kind).side
          = OrderSide.SELL
      then (OrderStruct.construct side id_field price_field quantity_field kind).price
      else -(OrderStruct.construct side id_field price_field quantity_field kind).price := by
  simp [OrderStruct.construct]

/-- Every book `OrderBook::process` can hold satisfies the invariant. -/
theorem reachable_invariant (book : OrderBook) (h : Reachable book) : book.invariant := by
  induction h with
  | empty => simp [OrderBook.invariant, OrderBook.empty, sorted_by_key]
  | submit book side id_field price_field quantity_field kind _ ih =>
    exact submit_invariant book _ ih (construct_key _ _ _ _ _)

/-- Claim C4. In every book reachable from the empty book by submissions (`match`, then
`insert` if a positive quantity remains) of constructed orders, the buy vector is sorted by
non-decreasing `compare_by`, that is by non-increasing price, and the sell vector is sorted
by non-decreasing `compare_by`, that is by non-decreasing price; hence the front of the buy
vector has the greatest price of the resting buy orders and the front of the sell vector
the least price of the resting sell orders. -/
theorem reachable_sorted (book : OrderBook) (h : Reachable book) :
    sorted_by_key book.buy_orders ∧
    book.buy_orders.Pairwise (fun a b => b.price ≤ a.price) ∧
    sorted_by_key book.sell_orders ∧
    book.sell_orders.Pairwise (fun a b => a.price ≤ b.price) ∧
    (∀ front rest, book.buy_orders = front :: rest →
      ∀ r ∈ book.buy_orders, r.price ≤ front.price) ∧
    (∀ front rest, book.sell_orders = front :: rest →
      ∀ r ∈ book.sell_orders, front.price ≤ r.price) := by
  obtain ⟨hsell, hbuy, hss, hsb⟩ := reachable_invariant book h
  have hpb : book.buy_orders.Pairwise (fun a b => b.price ≤ a.price) := by
    refine List.Pairwise.imp_of_mem ?_ hsb
    intro a b ha hb hab
    have h1 := (hbuy a ha).2.1
    have h2 := (hbuy b hb).2.1
    omega
  have hps : book.sell_orders.Pairwise (fun a b => a.price ≤ b.price) := by
    refine List.Pairwise.imp_of_mem ?_ hss
    intro a b ha hb hab
    have h1 := (hsell a ha).2.1
    have h2 := (hsell b hb).2.1
    omega
  refine ⟨hsb, hpb, hss, hps, ?_, ?_⟩
  · intro front rest he r hr
    rw [he] at hpb hr
    rcases List.mem_cons.mp hr with rfl | hr
    · exact le_refl _
    · exact List.rel_of_pairwise_cons hpb hr
  · intro front rest he r hr
    rw [he] at hps hr
    rcases List.mem_cons.mp hr with rfl | hr
    · exact le_refl _
    · exact List.rel_of_pairwise_cons hps hr

/-- The book of the scenario after three submissions as an instance of
`reachable_sorted`. -/
theorem reachable_sorted_witness :
    Reachable scenario_book_3 ∧
    (sorted_by_key scenario_book_3.buy_orders ∧
    scenario_book_3.buy_orders.Pairwise (fun a b => b.price ≤ a.price) ∧
    sorted_by_key scenario_book_3.sell_orders ∧
    scenario_book_3.sell_orders.Pairwise (fun a b => a.price ≤ b.price) ∧
    (∀ front rest, scenario_book_3.buy_orders = front :: rest →
      ∀ r ∈ scenario_book_3.buy_orders, r.price ≤ front.price) ∧
    (∀ front rest, scenario_book_3.sell_orders = front :: rest →
      ∀ r ∈ scenario_book_3.sell_orders, front.price ≤ r.price)) :=
  ⟨scenario_reachable.2.2, reachable_sorted scenario_book_3 scenario_reachable.2.2⟩

/-! ## Resting orders have a positive quantity -/

/-- Claim C8. In every book reachable from the empty book by submissions of constructed
orders, every order in the buy or the sell vector has a quantity greater than 0.  The step
behind it: whatever the incoming order, every order `OrderBook::match` leaves in the
opposite vector of such a book has a quantity greater than 0, that is, a resting order
brought to 0 is erased in the pass that fills it. -/
theorem reachable_positive_quantity (book : OrderBook) (h : Reachable book) :
    (∀ r, r ∈ book.buy_orders ∨ r ∈ book.sell_orders → 0 < r.quantity) ∧
    (∀ incoming_order : OrderStruct,
      ∀ x ∈ (book.match_ incoming_order).book.opposite incoming_order, 0 < x.quantity) := by
  obtain ⟨hsell, hbuy, _, _⟩ := reachable_invariant book h
  constructor
  · intro r hr
    rcases hr with hr | hr
    · exact (hbuy r hr).2.2
    · exact (hsell r hr).2.2
  · intro incoming_order
    rw [match_opposite]
    apply match_one_side_keeps (fun r => 0 < r.quantity) (fun o q _ hq => hq)
    intro x hx
    unfold OrderBook.opposite at hx
    split at hx
    · exact (hsell x hx).2.2
    · exact (hbuy x hx).2.2

/-- The book of the scenario after two submissions as an instance of
`reachable_positive_quantity`. -/
theorem reachable_positive_quantity_witness :
    Reachable scenario_book_2 ∧
    ((∀ r, r ∈ scenario_book_2.buy_orders ∨ r ∈ scenario_book_2.sell_orders →
      0 < r.quantity) ∧
    (∀ incoming_order : OrderStruct,
      ∀ x ∈ (scenario_book_2.match_ incoming_order).book.opposite incoming_order,
        0 < x.quantity)) :=
  ⟨scenario_reachable.2.1, reachable_positive_quantity scenario_book_2 scenario_reachable.2.1⟩

/-! ## The limit price -/

/-- The predicate `is_trade_possible`, spelled out. -/
theorem is_trade_possible_iff (resting incoming_order : OrderStruct) :
    is_trade_possible resting incoming_order = true ↔
      (if incoming_order.side = OrderSide.BUY then resting.price ≤ incoming_order.price
       else resting.price ≥ incoming_order.price) := by
  unfold is_trade_possible
  split <;> simp

/-- Every trade message of `match_one_side` carries the price of an order of the vector
that the incoming order can trade with. -/
theorem match_one_side_trade_price (order_book : List OrderStruct)
    (incoming_order : OrderStruct) (trade : Trade)
    (ht : trade ∈ (match_one_side order_book incoming_order).trades) :
    ∃ resting ∈ order_book, is_trade_possible resting incoming_order = true ∧
      trade.price = resting.price ∧ trade.resting_id = resting.id := by
  rcases match_one_side_shape order_book incoming_order with
    ⟨pre, hb, hall, he, _, _⟩ | ⟨pre, top_order, rest, hb, hall, hp, _, _, _, he, _⟩
  · rw [he] at ht
    obtain ⟨x, hx, rfl⟩ := List.mem_map.mp ht
    refine ⟨x, ?_, hall x hx, rfl, rfl⟩
    rw [hb]
    exact List.mem_append_left _ hx
  · rw [he] at ht
    rcases List.mem_append.mp ht with ht | ht
    · obtain ⟨x, hx, rfl⟩ := List.mem_map.mp ht
      refine ⟨x, ?_, hall x hx, rfl, rfl⟩
      rw [hb]
      exact List.mem_append_left _ hx
    · rw [List.mem_singleton] at ht
      subst ht
      refine ⟨top_order, ?_, hp, rfl, rfl⟩
      rw [hb]
      exact List.mem_append_right _ (List.mem_cons_self _ _)

/-- Claim C9. For every book and every incoming order, every trade message of
`OrderBook::match` has a price within the limit of the incoming order: at most its price
when it is a BUY, at least its price when it is a SELL; and `is_trade_possible` of a
resting and an incoming order is exactly `resting.price <= incoming.price` for a BUY and
`resting.price >= incoming.price` for a SELL. -/
theorem match_trade_within_limit (book : OrderBook) (incoming_order : OrderStruct)
    (trade : Trade) (ht : trade ∈ (book.match_ incoming_order).trades) :
    (incoming_order.side = OrderSide.BUY → trade.price ≤ incoming_order.price) ∧
    (incoming_order.side = OrderSide.SELL → trade.price ≥ incoming_order.price) ∧
    (∀ resting incoming : OrderStruct,
      is_trade_possible resting incoming = true ↔
        (if incoming.side = OrderSide.BUY then resting.price ≤ incoming.price
         else resting.price ≥ incoming.price)) := by
  rw [match_trades] at ht
  obtain ⟨resting, _, hp, hprice, _⟩ := match_one_side_trade_price _ _ _ ht
  rw [is_trade_possible_iff] at hp
  refine ⟨?_, ?_, is_trade_possible_iff⟩
  · intro hside
    rw [if_pos hside] at hp
    rw [hprice]
    exact hp
  · intro hside
    have hne : ¬ incoming_order.side = OrderSide.BUY := by rw [hside]; decide
    rw [if_neg hne] at hp
    rw [hprice]
    exact hp

/-- The trade of the specification's scenario B as an instance of
`match_trade_within_limit`: a resting SELL id 1 at price 100 with quantity 6 hit by a BUY
id 3 at price 101 trades at 100. -/
theorem match_trade_within_limit_witness :
    (⟨1, 3, 100, 6⟩ : Trade) ∈
      (OrderBook.match_ ⟨[⟨OrderSide.SELL, 1, 100, 6, 100, OrderKind.LimitOrder⟩], []⟩
        ⟨OrderSide.BUY, 3, 101, 6, -101, OrderKind.LimitOrder⟩).trades ∧
    ((OrderSide.BUY = OrderSide.BUY → (100 : Int) ≤ 101) ∧
    (OrderSide.BUY = OrderSide.SELL → (100 : Int) ≥ 101) ∧
    (∀ resting incoming : OrderStruct,
      is_trade_possible resting incoming = true ↔
        (if incoming.side = OrderSide.BUY then resting.price ≤ incoming.price
         else resting.price ≥ incoming.price))) :=
  ⟨by simp [OrderBook.match_, match_one_side, match_step, is_trade_possible],
   match_trade_within_limit
     ⟨[⟨OrderSide.SELL, 1, 100, 6, 100, OrderKind.LimitOrder⟩], []⟩
     ⟨OrderSide.BUY, 3, 101, 6, -101, OrderKind.LimitOrder⟩ ⟨1, 3, 100, 6⟩
     (by simp [OrderBook.match_, match_one_side, match_step, is_trade_possible])⟩

/-! ## Bounds on the quantities -/

/-- Orders with positive quantities add up to a non-negative total. -/
theorem total_quantity_nonneg (l : List OrderStruct) (h : ∀ r ∈ l, 0 < r.quantity) :
    0 ≤ total_quantity l := by
  induction l with
  | nil => simp [total_quantity]
  | cons x l ih =>
    have hx := h x (List.mem_cons_self _ _)
    have hl := ih (fun r hr => h r (List.mem_cons_of_mem _ hr))
    simp only [total_quantity, List.map_cons, List.sum_cons] at hl ⊢
    omega

/-- An order with a non-negative quantity is a reduced copy of itself. -/
theorem quantity_reduced_self (l : List OrderStruct) (h : ∀ r ∈ l, 0 < r.quantity) :
    List.Forall₂ quantity_reduced l l := by
  rw [List.forall₂_same]
  intro x hx
  exact ⟨rfl, le_of_lt (h x hx), le_refl _⟩

/-- With positive resting quantities and a non-negative incoming quantity,
`match_one_side` leaves the incoming order between `0` and what it had, erases a prefix of
the vector by trades of exactly the quantities of these orders, and leaves every other
order with a quantity between `0` and what it had. -/
theorem match_one_side_bounds (order_book : List OrderStruct) (incoming_order : OrderStruct)
    (hpos : ∀ r ∈ order_book, 0 < r.quantity) (hq : 0 ≤ incoming_order.quantity) :
    0 ≤ (match_one_side order_book incoming_order).incoming_order.quantity ∧
    (match_one_side order_book incoming_order).incoming_order.quantity
      ≤ incoming_order.quantity ∧
    ∃ erased kept, order_book = erased ++ kept ∧
      (match_one_side order_book incoming_order).trades.take erased.length =
        erased.map (full_fill incoming_order.id) ∧
      List.Forall₂ quantity_reduced kept
        (match_one_side order_book incoming_order).order_book := by
  rcases match_one_side_shape order_book incoming_order with
    ⟨pre, hb, _, ht, hi, hbound⟩ | ⟨pre, top_order, rest, hb, _, _, h0, hlt, hb2, ht, hi⟩
  · have hpre : 0 ≤ total_quantity pre := by
      apply total_quantity_nonneg
      intro r hr
      apply hpos
      rw [hb]
      exact List.mem_append_left _ hr
    have hkept : ∀ r ∈ (match_one_side order_book incoming_order).order_book,
        0 < r.quantity := by
      intro r hr
      apply hpos
      rw [hb]
      exact List.mem_append_right _ hr
    refine ⟨?_, ?_, pre, _, hb, ?_, quantity_reduced_self _ hkept⟩
    · rw [hi]
      rcases hbound with rfl | hbound
      · simpa [total_quantity] using hq
      · simpa using hbound
    · rw [hi]
      simpa using hpre
    · rw [ht]
      simp
  · have hrest : ∀ r ∈ rest, 0 < r.quantity := by
      intro r hr
      apply hpos
      rw [hb]
      exact List.mem_append_right _ (List.mem_cons_of_mem _ hr)
    refine ⟨?_, ?_, pre, top_order :: rest, hb, ?_, ?_⟩
    · rw [hi]
    · rw [hi]
      exact hq
    · rw [ht]
      simp
    · rw [hb2]
      refine List.Forall₂.cons ⟨rfl, ?_, ?_⟩ (quantity_reduced_self _ hrest)
      · simp only
        omega
      · simp only
        omega

/-- Claim C10. For every book whose resting orders of the opposite side all have a
quantity greater than 0 and every incoming order with a quantity of at least 0, after
`OrderBook::match` the remaining quantity of the incoming order lies between 0 and its
quantity before the call, so the trade quantities of the call add up to at most that
quantity; every resting order that is erased has traded exactly its quantity (it went down
to 0), every resting order that stays has a quantity between 0 and what it had, with its
other fields unchanged, and the vector of the incoming order's own side is untouched. -/
theorem match_quantity_bounds (book : OrderBook) (incoming_order : OrderStruct)
    (hpos : ∀ r ∈ book.opposite incoming_order, 0 < r.quantity)
    (hq : 0 ≤ incoming_order.quantity) :
    0 ≤ (book.match_ incoming_order).incoming_order.quantity ∧
    (book.match_ incoming_order).incoming_order.quantity ≤ incoming_order.quantity ∧
    traded_total (book.match_ incoming_order).trades ≤ incoming_order.quantity ∧
    (∃ erased kept, book.opposite incoming_order = erased ++ kept ∧
      (book.match_ incoming_order).trades.take erased.length =
        erased.map (full_fill incoming_order.id) ∧
      List.Forall₂ quantity_reduced kept
        ((book.match_ incoming_order).book.opposite incoming_order)) ∧
    (book.match_ incoming_order).book.own_side incoming_order =
      book.own_side incoming_order := by
  rw [match_incoming, match_trades, match_opposite]
  obtain ⟨h1, h2, h3⟩ := match_one_side_bounds _ incoming_order hpos hq
  have hc := match_one_side_conserves (book.opposite incoming_order) incoming_order
  refine ⟨h1, h2, by omega, h3, match_own_side book incoming_order⟩

/-- Scenario A of the specification as an instance of `match_quantity_bounds`: the book
holding the SELL order id 1 with quantity 10 and the incoming BUY order id 2 with
quantity 4. -/
theorem match_quantity_bounds_witness :
    (∀ r ∈ scenario_book_1.opposite scenario_buy_2, 0 < r.quantity) ∧
    0 ≤ scenario_buy_2.quantity ∧
    (0 ≤ (scenario_book_1.match_ scenario_buy_2).incoming_order.quantity ∧
    (scenario_book_1.match_ scenario_buy_2).incoming_order.quantity
      ≤ scenario_buy_2.quantity ∧
    traded_total (scenario_book_1.match_ scenario_buy_2).trades ≤ scenario_buy_2.quantity ∧
    (∃ erased kept, scenario_book_1.opposite scenario_buy_2 = erased ++ kept ∧
      (scenario_book_1.match_ scenario_buy_2).trades.take erased.length =
        erased.map (full_fill scenario_buy_2.id) ∧
      List.Forall₂ quantity_reduced kept
        ((scenario_book_1.match_ scenario_buy_2).book.opposite scenario_buy_2)) ∧
    (scenario_book_1.match_ scenario_buy_2).book.own_side scenario_buy_2 =
      scenario_book_1.own_side scenario_buy_2) :=
  ⟨by simp [scenario_book_1_eq, scenario_buy_2_eq, OrderBook.opposite],
   by simp [scenario_buy_2_eq],
   match_quantity_bounds scenario_book_1 scenario_buy_2
     (by simp [scenario_book_1_eq, scenario_buy_2_eq, OrderBook.opposite])
     (by simp [scenario_buy_2_eq])⟩

/-! ## Where the incoming order ends up -/

/-- The vector of the incoming order's side after a submission: the order is inserted if a
positive quantity remains, and the vector is left alone otherwise. -/
theorem submit_own_side (book : OrderBook) (incoming_order : OrderStruct) :
    (book.submit incoming_order).book.own_side incoming_order =
      if 0 < (book.submit incoming_order).incoming_order.quantity then
        insert_into (book.own_side incoming_order) (book.submit incoming_order).incoming_order
      else book.own_side incoming_order := by
  cases hside : incoming_order.side with
  | BUY =>
    obtain ⟨_, e2, e3, _⟩ := submit_book_buy book incoming_order hside
    have hne : ¬ (OrderSide.BUY = OrderSide.SELL) := by decide
    simp only [OrderBook.own_side, hside, hne, if_false, e2, e3]
  | SELL =>
    obtain ⟨_, e2, e3, _⟩ := submit_book_sell book incoming_order hside
    simp only [OrderBook.own_side, hside, if_true, e2, e3]

/-- The opposite vector after a submission is the one `match_one_side` leaves. -/
theorem submit_opposite (book : OrderBook) (incoming_order : OrderStruct) :
    (book.submit incoming_order).book.opposite incoming_order =
      (match_one_side (book.opposite incoming_order) incoming_order).order_book := by
  cases hside : incoming_order.side with
  | BUY =>
    obtain ⟨e1, _, _, _⟩ := submit_book_buy book incoming_order hside
    simp only [OrderBook.opposite, hside, if_true, e1]
  | SELL =>
    obtain ⟨e1, _, _, _⟩ := submit_book_sell book incoming_order hside
    have hne : ¬ (OrderSide.SELL = OrderSide.BUY) := by decide
    simp only [OrderBook.opposite, hside, hne, if_false, e1]

/-- The incoming order after a submission is the incoming order with the quantity that
remains. -/
theorem submit_incoming_fields (book : OrderBook) (incoming_order : OrderStruct) :
    (book.submit incoming_order).incoming_order =
      { incoming_order with
        quantity := (book.submit incoming_order).incoming_order.quantity } := by
  rw [(submit_incoming_trades book incoming_order).1, match_incoming]
  exact match_one_side_incoming_fields _ _

/-- Every order of a book is in the vector of an order's own side or in the opposite one. -/
theorem mem_own_or_opposite (book : OrderBook) (order x : OrderStruct) :
    (x ∈ book.own_side order → x ∈ book.sell_orders ∨ x ∈ book.buy_orders) ∧
    (x ∈ book.opposite order → x ∈ book.sell_orders ∨ x ∈ book.buy_orders) := by
  unfold OrderBook.own_side OrderBook.opposite
  constructor
  · split
    · exact Or.inl
    · exact Or.inr
  · split
    · exact Or.inl
    · exact Or.inr

/-- Claim C7. For every book and every incoming order whose id no resting order carries
(the incoming order is a new object), after the submission the incoming order is in the
vector of its own side if and only if its remaining quantity is greater than 0, and then
exactly once: the vector `pre ++ post` has become `pre ++ incoming :: post`; an incoming
order that is filled completely is not inserted, the vector of its side being left as it
was; and the incoming order is never in the vector of the opposite side, which holds no
order with its id. -/
theorem submit_rests_iff_remaining (book : OrderBook) (incoming_order : OrderStruct)
    (hfresh : ∀ x, x ∈ book.sell_orders ∨ x ∈ book.buy_orders → x.id ≠ incoming_order.id) :
    ((book.submit incoming_order).incoming_order ∈
        (book.submit incoming_order).book.own_side incoming_order ↔
      0 < (book.submit incoming_order).incoming_order.quantity) ∧
    ((book.submit incoming_order).book.own_side incoming_order).count
        (book.submit incoming_order).incoming_order =
      (if 0 < (book.submit incoming_order).incoming_order.quantity then 1 else 0) ∧
    (0 < (book.submit incoming_order).incoming_order.quantity →
      ∃ pre post, book.own_side incoming_order = pre ++ post ∧
        (book.submit incoming_order).book.own_side incoming_order =
          pre ++ (book.submit incoming_order).incoming_order :: post) ∧
    (¬ 0 < (book.submit incoming_order).incoming_order.quantity →
      (book.submit incoming_order).book.own_side incoming_order =
        book.own_side incoming_order) ∧
    (book.submit incoming_order).incoming_order ∉
      (book.submit incoming_order).book.opposite incoming_order ∧
    (∀ x ∈ (book.submit incoming_order).book.opposite incoming_order,
      x.id ≠ incoming_order.id) := by
  have hid : (book.submit incoming_order).incoming_order.id = incoming_order.id := by
    rw [submit_incoming_fields]
  have hown : (book.submit incoming_order).incoming_order ∉ book.own_side incoming_order := by
    intro hmem
    exact hfresh _ ((mem_own_or_opposite book incoming_order _).1 hmem) hid
  have hopp : ∀ x ∈ (book.submit incoming_order).book.opposite incoming_order,
      x.id ≠ incoming_order.id := by
    rw [submit_opposite]
    apply match_one_side_keeps (fun x => x.id ≠ incoming_order.id) (fun o q ho _ => ho)
    intro x hx
    exact hfresh x ((mem_own_or_opposite book incoming_order x).2 hx)
  have hcount : (book.own_side incoming_order).count
      (book.submit incoming_order).incoming_order = 0 :=
    List.count_eq_zero_of_not_mem hown
  rw [submit_own_side]
  by_cases hq : 0 < (book.submit incoming_order).incoming_order.quantity
  · rw [if_pos hq, if_pos hq]
    obtain ⟨pre, post, hl, hins, _⟩ :=
      insert_into_split_any (book.own_side incoming_order)
        (book.submit incoming_order).incoming_order
    refine ⟨⟨fun _ => hq, fun _ => ?_⟩, ?_, fun _ => ⟨pre, post, hl, hins⟩,
      fun h => absurd hq h, fun hmem => hopp _ hmem hid, hopp⟩
    · rw [mem_insert_into]
      exact Or.inl rfl
    · rw [hins]
      rw [hl, List.count_append] at hcount
      rw [List.count_append, List.count_cons_self]
      omega
  · rw [if_neg hq, if_neg hq]
    exact ⟨⟨fun h => absurd h hown, fun h => absurd h hq⟩, hcount, fun h => absurd h hq,
      fun _ => rfl, fun hmem => hopp _ hmem hid, hopp⟩

/-- The third submission of the scenario as an instance of `submit_rests_iff_remaining`:
the BUY order id 9 at price 99 does not trade with the SELL order id 1 at price 100 and
rests in the buy vector. -/
theorem submit_rests_iff_remaining_witness :
    (∀ x, x ∈ scenario_book_2.sell_orders ∨ x ∈ scenario_book_2.buy_orders →
      x.id ≠ scenario_buy_9.id) ∧
    (((scenario_book_2.submit scenario_buy_9).incoming_order ∈
        (scenario_book_2.submit scenario_buy_9).book.own_side scenario_buy_9 ↔
      0 < (scenario_book_2.submit scenario_buy_9).incoming_order.quantity) ∧
    ((scenario_book_2.submit scenario_buy_9).book.own_side scenario_buy_9).count
        (scenario_book_2.submit scenario_buy_9).incoming_order =
      (if 0 < (scenario_book_2.submit scenario_buy_9).incoming_order.quantity then 1
       else 0) ∧
    (0 < (scenario_book_2.submit scenario_buy_9).incoming_order.quantity →
      ∃ pre post, scenario_book_2.own_side scenario_buy_9 = pre ++ post ∧
        (scenario_book_2.submit scenario_buy_9).book.own_side scenario_buy_9 =
          pre ++ (scenario_book_2.submit scenario_buy_9).incoming_order :: post) ∧
    (¬ 0 < (scenario_book_2.submit scenario_buy_9).incoming_order.quantity →
      (scenario_book_2.submit scenario_buy_9).book.own_side scenario_buy_9 =
        scenario_book_2.own_side scenario_buy_9) ∧
    (scenario_book_2.submit scenario_buy_9).incoming_order ∉
      (scenario_book_2.submit scenario_buy_9).book.opposite scenario_buy_9 ∧
    (∀ x ∈ (scenario_book_2.submit scenario_buy_9).book.opposite scenario_buy_9,
      x.id ≠ scenario_buy_9.id)) :=
  ⟨by simp [scenario_book_2_eq, scenario_buy_9_eq],
   submit_rests_iff_remaining scenario_book_2 scenario_buy_9
     (by simp [scenario_book_2_eq, scenario_buy_9_eq])⟩

/-! ## Time priority -/

/-- A relation between orders that does not read the quantity of its first argument holds
pairwise in the vector `match_one_side` leaves, if it did before. -/
theorem match_one_side_pairwise (R : OrderStruct → OrderStruct → Prop)
    (hR : ∀ (a b : OrderStruct) (q : Int), R a b → R { a with quantity := q } b)
    (order_book : List OrderStruct) (incoming_order : OrderStruct)
    (h : order_book.Pairwise R) :
    (match_one_side order_book incoming_order).order_book.Pairwise R := by
  rcases match_one_side_shape order_book incoming_order with
    ⟨pre, hb, _, _, _⟩ | ⟨pre, top_order, rest, hb, _, _, _, _, hb2, _, _⟩
  · rw [hb, List.pairwise_append] at h
    exact h.2.1
  · rw [hb, List.pairwise_append, List.pairwise_cons] at h
    rw [hb2, List.pairwise_cons]
    exact ⟨fun y hy => hR _ _ _ (h.2.1.1 y hy), h.2.1.2⟩

/-- A relation holds pairwise after `insert_into` on a sorted vector if it did before, if
it holds from every order with a key not above the new one to the new order, and from the
new order to every order with a key above it. -/
theorem insert_into_pairwise (R : OrderStruct → OrderStruct → Prop)
    (l : List OrderStruct) (o : OrderStruct) (hs : sorted_by_key l) (h : l.Pairwise R)
    (hpre : ∀ x ∈ l, x.compare_by ≤ o.compare_by → R x o)
    (hpost : ∀ y ∈ l, o.compare_by < y.compare_by → R o y) :
    (insert_into l o).Pairwise R := by
  obtain ⟨pre, post, hl, hins, hle, hlt⟩ := insert_into_split l o hs
  rw [hl, List.pairwise_append] at h
  rw [hins, List.pairwise_append, List.pairwise_cons]
  refine ⟨h.1, ⟨?_, h.2.1⟩, ?_⟩
  · intro y hy
    apply hpost y _ (hlt y hy)
    rw [hl]
    exact List.mem_append_right _ hy
  · intro a ha b hb
    rcases List.mem_cons.mp hb with rfl | hb
    · apply hpre a _ (hle a ha)
      rw [hl]
      exact List.mem_append_left _ ha
    · exact h.2.2 a ha b hb

/-- The arrival position of an id that is already in the input does not change when a
further order arrives, and it is smaller than the position of a new id. -/
theorem arrival_append (orders : List OrderStruct) (o : OrderStruct) (id : Int)
    (hid : id ∈ orders.map OrderStruct.id) (hfresh : o.id ∉ orders.map OrderStruct.id) :
    arrival (orders ++ [o]) id = arrival orders id ∧
    arrival orders id < arrival (orders ++ [o]) o.id := by
  unfold arrival
  rw [List.map_append, List.indexOf_append_of_mem hid,
    List.indexOf_append_of_not_mem hfresh]
  exact ⟨rfl, Nat.lt_add_right _ (List.indexOf_lt_length.mpr hid)⟩

/-- A vector that is time ordered with respect to the input stays so when a further order
arrives. -/
theorem time_ordered_append (orders : List OrderStruct) (o : OrderStruct)
    (l : List OrderStruct) (hids : ∀ x ∈ l, x.id ∈ orders.map OrderStruct.id)
    (hfresh : o.id ∉ orders.map OrderStruct.id) (h : time_ordered orders l) :
    time_ordered (orders ++ [o]) l := by
  unfold time_ordered at h ⊢
  refine List.Pairwise.imp_of_mem ?_ h
  intro a b ha hb hab hprice
  rw [(arrival_append orders o a.id (hids a ha) hfresh).1,
    (arrival_append orders o b.id (hids b hb) hfresh).1]
  exact hab hprice

/-- The opposite vector stays time ordered through `match_one_side`, and holds ids of the
input only. -/
theorem match_one_side_time_ordered (orders : List OrderStruct)
    (order_book : List OrderStruct) (incoming_order : OrderStruct)
    (hids : ∀ x ∈ order_book, x.id ∈ orders.map OrderStruct.id)
    (h : time_ordered orders order_book) :
    (∀ x ∈ (match_one_side order_book incoming_order).order_book,
      x.id ∈ orders.map OrderStruct.id) ∧
    time_ordered orders (match_one_side order_book incoming_order).order_book :=
  ⟨match_one_side_keeps (fun x => x.id ∈ orders.map OrderStruct.id)
      (fun _ _ ho _ => ho) _ _ hids,
   match_one_side_pairwise _ (fun _ _ _ hab => hab) _ _ h⟩

/-- The vector of the incoming order's side stays time ordered when the order, arriving
last, is inserted: the orders of its price are all in front of it. -/
theorem insert_into_time_ordered (orders : List OrderStruct) (o : OrderStruct)
    (l : List OrderStruct) (incoming : OrderStruct)
    (hid : incoming.id = o.id)
    (hsorted : sorted_by_key l)
    (hkeys : ∀ y ∈ l, incoming.compare_by < y.compare_by → incoming.price ≠ y.price)
    (hids : ∀ x ∈ l, x.id ∈ orders.map OrderStruct.id)
    (hfresh : o.id ∉ orders.map OrderStruct.id) (h : time_ordered orders l) :
    (∀ x ∈ insert_into l incoming, x.id ∈ (orders ++ [o]).map OrderStruct.id) ∧
    time_ordered (orders ++ [o]) (insert_into l incoming) := by
  constructor
  · intro x hx
    rw [List.map_append, List.mem_append]
    rcases (mem_insert_into _ _ _).mp hx with rfl | hx
    · right
      simp [hid]
    · exact Or.inl (hids x hx)
  · have h2 := time_ordered_append orders o l hids hfresh h
    unfold time_ordered at h2 ⊢
    apply insert_into_pairwise _ l incoming hsorted h2
    · intro x hx _ _
      rw [hid]
      rw [(arrival_append orders o x.id (hids x hx) hfresh).1]
      exact (arrival_append orders o x.id (hids x hx) hfresh).2
    · intro y hy hlt hprice
      exact absurd hprice (hkeys y hy hlt)

/-- A submission of an order with a new id keeps both vectors time ordered with respect
to the input, the order being the last of the input. -/
theorem submit_time_ordered (orders : List OrderStruct) (book : OrderBook) (o : OrderStruct)
    (hinv : book.invariant)
    (hkey : o.compare_by = if o.side = OrderSide.SELL then o.price else -o.price)
    (hsell : ∀ x ∈ book.sell_orders, x.id ∈ orders.map OrderStruct.id)
    (hbuy : ∀ x ∈ book.buy_orders, x.id ∈ orders.map OrderStruct.id)
    (hfresh : o.id ∉ orders.map OrderStruct.id)
    (hts : time_ordered orders book.sell_orders)
    (htb : time_ordered orders book.buy_orders) :
    (∀ x ∈ (book.submit o).book.sell_orders, x.id ∈ (orders ++ [o]).map OrderStruct.id) ∧
    (∀ x ∈ (book.submit o).book.buy_orders, x.id ∈ (orders ++ [o]).map OrderStruct.id) ∧
    time_ordered (orders ++ [o]) (book.submit o).book.sell_orders ∧
    time_ordered (orders ++ [o]) (book.submit o).book.buy_orders := by
  obtain ⟨isell, ibuy, iss, isb⟩ := hinv
  have hweak : ∀ l : List OrderStruct, (∀ x ∈ l, x.id ∈ orders.map OrderStruct.id) →
      ∀ x ∈ l, x.id ∈ (orders ++ [o]).map OrderStruct.id := by
    intro l hl x hx
    rw [List.map_append, List.mem_append]
    exact Or.inl (hl x hx)
  cases hside : o.side with
  | BUY =>
    obtain ⟨e1, e2, _, _⟩ := submit_book_buy book o hside
    have hf := match_one_side_incoming_fields book.sell_orders o
    obtain ⟨m1, m2⟩ := match_one_side_time_ordered orders book.sell_orders o hsell hts
    have hne : ¬ (OrderSide.BUY = OrderSide.SELL) := by decide
    rw [hside, if_neg hne] at hkey
    rw [e1, e2]
    refine ⟨hweak _ m1, ?_, time_ordered_append orders o _ m1 hfresh m2, ?_⟩
    · split
      · exact (insert_into_time_ordered orders o book.buy_orders _ (by rw [hf]) isb
          (by
            intro y hy hlt hprice
            have hy2 := (ibuy y hy).2.1
            rw [hf] at hlt hprice
            simp only at hlt hprice
            omega) hbuy hfresh htb).1
      · exact hweak _ hbuy
    · split
      · exact (insert_into_time_ordered orders o book.buy_orders _ (by rw [hf]) isb
          (by
            intro y hy hlt hprice
            have hy2 := (ibuy y hy).2.1
            rw [hf] at hlt hprice
            simp only at hlt hprice
            omega) hbuy hfresh htb).2
      · exact time_ordered_append orders o _ hbuy hfresh htb
  | SELL =>
    obtain ⟨e1, e2, _, _⟩ := submit_book_sell book o hside
    have hf := match_one_side_incoming_fields book.buy_orders o
    obtain ⟨m1, m2⟩ := match_one_side_time_ordered orders book.buy_orders o hbuy htb
    rw [hside, if_pos rfl] at hkey
    rw [e1, e2]
    refine ⟨?_, hweak _ m1, ?_, time_ordered_append orders o _ m1 hfresh m2⟩
    · split
      · exact (insert_into_time_ordered orders o book.sell_orders _ (by rw [hf]) iss
          (by
            intro y hy hlt hprice
            have hy2 := (isell y hy).2.1
            rw [hf] at hlt hprice
            simp only at hlt hprice
            omega) hsell hfresh hts).1
      · exact hweak _ hsell
    · split
      · exact (insert_into_time_ordered orders o book.sell_orders _ (by rw [hf]) iss
          (by
            intro y hy hlt hprice
            have hy2 := (isell y hy).2.1
            rw [hf] at hlt hprice
            simp only at hlt hprice
            omega) hsell hfresh hts).2
      · exact time_ordered_append orders o _ hsell hfresh hts

/-- A book that is left by an input is a book `OrderBook::process` can hold. -/
theorem processed_reachable (orders : List OrderStruct) (book : OrderBook)
    (h : Processed orders book) : Reachable book := by
  induction h with
  | empty => exact Reachable.empty
  | submit orders book side id_field price_field quantity_field kind _ ih =>
    exact Reachable.submit book side id_field price_field quantity_field kind ih

/-- After an input of orders with unique ids, both vectors of the book hold ids of the
input only and are time ordered with respect to the input. -/
theorem processed_time_ordered (orders : List OrderStruct) (book : OrderBook)
    (h : Processed orders book) :
    (orders.map OrderStruct.id).Nodup →
    (∀ x ∈ book.sell_orders, x.id ∈ orders.map OrderStruct.id) ∧
    (∀ x ∈ book.buy_orders, x.id ∈ orders.map OrderStruct.id) ∧
    time_ordered orders book.sell_orders ∧ time_ordered orders book.buy_orders := by
  induction h with
  | empty =>
    intro _
    simp [OrderBook.empty, time_ordered]
  | submit orders book side id_field price_field quantity_field kind hp ih =>
    intro hn
    rw [List.map_append, List.nodup_append] at hn
    obtain ⟨hn1, _, hdis⟩ := hn
    obtain ⟨hsell, hbuy, hts, htb⟩ := ih hn1
    have hfresh : (OrderStruct.construct side id_field price_field quantity_field kind).id
        ∉ orders.map OrderStruct.id := by
      intro hmem
      exact hdis hmem (by simp)
    exact submit_time_ordered orders book _
      (reachable_invariant book (processed_reachable orders book hp))
      (construct_key _ _ _ _ _) hsell hbuy hfresh hts htb

/-- In a time-ordered vector, of two orders with the same price the one that arrived first
stands at the smaller position. -/
theorem time_ordered_position (orders : List OrderStruct) (l : List OrderStruct)
    (h : time_ordered orders l) (i j : Nat) (hi : i < l.length) (hj : j < l.length)
    (hprice : l[i].price = l[j].price)
    (harr : arrival orders l[i].id < arrival orders l[j].id) : i < j := by
  unfold time_ordered at h
  rw [List.pairwise_iff_getElem] at h
  by_contra hnot
  rcases Nat.lt_or_eq_of_le (Nat.le_of_not_lt hnot) with hlt | heq
  · have := h j i hj hi hlt hprice.symm
    omega
  · subst heq
    omega

/-- The book `queue_book` is the one left by the input `queue_input`. -/
theorem queue_processed : Processed queue_input queue_book :=
  Processed.submit _ _ OrderSide.SELL 2 100 5 OrderKind.LimitOrder
    (Processed.submit [] OrderBook.empty OrderSide.SELL 1 100 10 OrderKind.LimitOrder
      Processed.empty)

/-- Claim C6. After any input of constructed orders with unique ids, of two resting orders
of one vector (one side) with equal price the one that arrived first stands at the smaller
position.  And within one call of `OrderBook::match`, for any incoming order, the resting
orders are consumed from the front of the opposite vector in book order: the vector splits
into the orders `erased` and the orders `kept`, the trades are the complete fills of the
orders of `erased`, one per order and in their order, each of these orders being erased,
followed by at most one last trade, which fills the front order of `kept` partly and
leaves it at the front. So an order trades only after every order in front of it has been
filled and erased, and every trade but possibly the last fills and erases its resting
order. -/
theorem time_priority (orders : List OrderStruct) (book : OrderBook)
    (h : Processed orders book) (hn : (orders.map OrderStruct.id).Nodup)
    (incoming_order : OrderStruct) :
    (∀ (i j : Nat) (hi : i < book.sell_orders.length) (hj : j < book.sell_orders.length),
      book.sell_orders[i].price = book.sell_orders[j].price →
      arrival orders book.sell_orders[i].id < arrival orders book.sell_orders[j].id →
      i < j) ∧
    (∀ (i j : Nat) (hi : i < book.buy_orders.length) (hj : j < book.buy_orders.length),
      book.buy_orders[i].price = book.buy_orders[j].price →
      arrival orders book.buy_orders[i].id < arrival orders book.buy_orders[j].id →
      i < j) ∧
    (∃ erased kept, book.opposite incoming_order = erased ++ kept ∧
      (((book.match_ incoming_order).trades = erased.map (full_fill incoming_order.id) ∧
        (book.match_ incoming_order).book.opposite incoming_order = kept) ∨
       (∃ top_order rest q, kept = top_order :: rest ∧ 0 < q ∧ q < top_order.quantity ∧
        (book.match_ incoming_order).trades =
          erased.map (full_fill incoming_order.id) ++
            [⟨top_order.id, incoming_order.id, top_order.price, q⟩] ∧
        (book.match_ incoming_order).book.opposite incoming_order =
          { top_order with quantity := top_order.quantity - q } :: rest))) := by
  obtain ⟨_, _, hts, htb⟩ := processed_time_ordered orders book h hn
  refine ⟨fun i j hi hj => time_ordered_position orders _ hts i j hi hj,
    fun i j hi hj => time_ordered_position orders _ htb i j hi hj, ?_⟩
  rw [match_trades, match_opposite]
  rcases match_one_side_shape (book.opposite incoming_order) incoming_order with
    ⟨pre, hb, _, ht, _, _⟩ | ⟨pre, top_order, rest, hb, _, _, h0, hlt, hb2, ht, _⟩
  · exact ⟨pre, _, hb, Or.inl ⟨ht, rfl⟩⟩
  · exact ⟨pre, top_order :: rest, hb,
      Or.inr ⟨top_order, rest, _, rfl, h0, hlt, ht, hb2⟩⟩

/-- Two SELL orders at the same price hit by one BUY order, as an instance of
`time_priority`; the trades are `(1, 3, 100, 10)` and then `(2, 3, 100, 2)`. -/
theorem time_priority_witness :
    Processed queue_input queue_book ∧ (queue_input.map OrderStruct.id).Nodup ∧
    ((∀ (i j : Nat) (hi : i < queue_book.sell_orders.length)
        (hj : j < queue_book.sell_orders.length),
      queue_book.sell_orders[i].price = queue_book.sell_orders[j].price →
      arrival queue_input queue_book.sell_orders[i].id <
        arrival queue_input queue_book.sell_orders[j].id →
      i < j) ∧
    (∀ (i j : Nat) (hi : i < queue_book.buy_orders.length)
        (hj : j < queue_book.buy_orders.length),
      queue_book.buy_orders[i].price = queue_book.buy_orders[j].price →
      arrival queue_input queue_book.buy_orders[i].id <
        arrival queue_input queue_book.buy_orders[j].id →
      i < j) ∧
    (∃ erased kept, queue_book.opposite queue_taker = erased ++ kept ∧
      (((queue_book.match_ queue_taker).trades = erased.map (full_fill queue_taker.id) ∧
        (queue_book.match_ queue_taker).book.opposite queue_taker = kept) ∨
       (∃ top_order rest q, kept = top_order :: rest ∧ 0 < q ∧ q < top_order.quantity ∧
        (queue_book.match_ queue_taker).trades =
          erased.map (full_fill queue_taker.id) ++
            [⟨top_order.id, queue_taker.id, top_order.price, q⟩] ∧
        (queue_book.match_ queue_taker).book.opposite queue_taker =
          { top_order with quantity := top_order.quantity - q } :: rest)))) ∧
    (queue_book.match_ queue_taker).trades = [⟨1, 3, 100, 10⟩, ⟨2, 3, 100, 2⟩] :=
  ⟨queue_processed,
   by simp [queue_input, OrderStruct.construct],
   time_priority queue_input queue_book queue_processed
     (by simp [queue_input, OrderStruct.construct]) queue_taker,
   by simp [queue_book, queue_taker, OrderStruct.construct, static_cast_short,
     OrderBook.submit, OrderBook.match_, OrderBook.empty, OrderBook.insert, insert_into,
     upper_bound, match_one_side, match_step, is_trade_possible]⟩

/-! ## Matching does not read the display volume -/

/-- Orders that agree in their terms trade alike with incoming orders that agree in their
terms. -/
theorem is_trade_possible_same_terms (a b i1 i2 : OrderStruct) (hab : same_terms a b)
    (hi : same_terms i1 i2) : is_trade_possible a i1 = is_trade_possible b i2 := by
  obtain ⟨_, _, hp, _⟩ := hab
  obtain ⟨hs, _, hip, _⟩ := hi
  unfold is_trade_possible
  rw [hs, hp, hip]

/-- Two runs of `match_one_side` on vectors and incoming orders that agree, order by order,
in side, id, price and quantity print the same trades and leave vectors and incoming orders
that agree in the same way. -/
theorem match_one_side_same_terms (b1 b2 : List OrderStruct)
    (h : List.Forall₂ same_terms b1 b2) :
    ∀ i1 i2 : OrderStruct, same_terms i1 i2 →
      (match_one_side b1 i1).trades = (match_one_side b2 i2).trades ∧
      List.Forall₂ same_terms (match_one_side b1 i1).order_book
        (match_one_side b2 i2).order_book ∧
      same_terms (match_one_side b1 i1).incoming_order
        (match_one_side b2 i2).incoming_order := by
  induction h with
  | nil =>
    intro i1 i2 hi
    rw [match_one_side_nil, match_one_side_nil]
    exact ⟨rfl, List.Forall₂.nil, hi⟩
  | cons hab hrest ih =>
    rename_i a b l1 l2
    intro i1 i2 hi
    have hp := is_trade_possible_same_terms a b i1 i2 hab hi
    obtain ⟨has, haid, hap, haq⟩ := hab
    obtain ⟨his, hiid, hip, hiq⟩ := hi
    by_cases hcond : i1.quantity > 0 ∧ is_trade_possible a i1 = true
    · have hcond2 : i2.quantity > 0 ∧ is_trade_possible b i2 = true := by
        rw [← hiq, ← hp]
        exact hcond
      by_cases hle : a.quantity ≤ i1.quantity
      · have hle2 : b.quantity ≤ i2.quantity := by rw [← haq, ← hiq]; exact hle
        rw [match_one_side_fill a l1 i1 hcond.1 hcond.2 hle,
          match_one_side_fill b l2 i2 hcond2.1 hcond2.2 hle2]
        obtain ⟨e1, e2, e3⟩ := ih { i1 with quantity := i1.quantity - a.quantity }
          { i2 with quantity := i2.quantity - b.quantity }
          ⟨his, hiid, hip, by simp only [haq, hiq]⟩
        refine ⟨?_, e2, e3⟩
        rw [e1, haid, hiid, hap, haq]
      · have hlt : i1.quantity < a.quantity := by omega
        have hlt2 : i2.quantity < b.quantity := by rw [← haq, ← hiq]; exact hlt
        rw [match_one_side_part_fill a l1 i1 hcond.1 hcond.2 hlt,
          match_one_side_part_fill b l2 i2 hcond2.1 hcond2.2 hlt2]
        refine ⟨?_, List.Forall₂.cons ⟨has, haid, hap, ?_⟩ hrest, ⟨his, hiid, hip, rfl⟩⟩
        · simp only [haid, hiid, hap, hiq]
        · simp only [haq, hiq]
    · have hcond2 : ¬ (i2.quantity > 0 ∧ is_trade_possible b i2 = true) := by
        rw [← hiq, ← hp]
        exact hcond
      rw [match_one_side_stop a l1 i1 hcond, match_one_side_stop b l2 i2 hcond2]
      exact ⟨rfl, List.Forall₂.cons ⟨has, haid, hap, haq⟩ hrest, ⟨his, hiid, hip, hiq⟩⟩

/-- Vectors that agree order by order in their terms hold the same ids and the same
quantities, in the same order. -/
theorem same_terms_ids (l1 l2 : List OrderStruct) (h : List.Forall₂ same_terms l1 l2) :
    l1.map OrderStruct.id = l2.map OrderStruct.id ∧
    l1.map OrderStruct.quantity = l2.map OrderStruct.quantity := by
  induction h with
  | nil => exact ⟨rfl, rfl⟩
  | cons hab _ ih =>
    simp only [List.map_cons, ih.1, ih.2, hab.2.1, hab.2.2.2, and_self]

/-- Scenario C of the specification, evaluated: the iceberg order and the incoming BUY
order. -/
theorem scenario_iceberg_eq :
    scenario_iceberg_4 = ⟨OrderSide.SELL, 4, 50, 100, 50, OrderKind.IcebergOrder 10⟩ ∧
    scenario_buy_5 = ⟨OrderSide.BUY, 5, 50, 100, -50, OrderKind.LimitOrder⟩ := by
  simp [scenario_iceberg_4, scenario_buy_5, OrderStruct.construct, static_cast_short]

/-- Claim C11. Matching never reads the displayed volume: for two books and two incoming
orders that agree, order by order, in side, id, price and quantity (so that an order may
be replaced by one of the other subclass or with another peak), `OrderBook::match` prints
exactly the same trades, leaves the same remaining quantities, and leaves both vectors
with the same ids in the same order.  In scenario C of the specification the iceberg SELL
order id 4 (price 50, quantity 100, peak 10) hit by the BUY order id 5 (price 50, quantity
100) gives the single trade `(4, 5, 50, 100)` and leaves both vectors empty. -/
theorem match_ignores_display_volume (book1 book2 : OrderBook) (i1 i2 : OrderStruct)
    (hsell : List.Forall₂ same_terms book1.sell_orders book2.sell_orders)
    (hbuy : List.Forall₂ same_terms book1.buy_orders book2.buy_orders)
    (hi : same_terms i1 i2) :
    ((book1.match_ i1).trades = (book2.match_ i2).trades ∧
     same_terms (book1.match_ i1).incoming_order (book2.match_ i2).incoming_order ∧
     List.Forall₂ same_terms (book1.match_ i1).book.sell_orders
       (book2.match_ i2).book.sell_orders ∧
     List.Forall₂ same_terms (book1.match_ i1).book.buy_orders
       (book2.match_ i2).book.buy_orders ∧
     (book1.match_ i1).book.sell_orders.map OrderStruct.id =
       (book2.match_ i2).book.sell_orders.map OrderStruct.id ∧
     (book1.match_ i1).book.buy_orders.map OrderStruct.id =
       (book2.match_ i2).book.buy_orders.map OrderStruct.id ∧
     (book1.match_ i1).book.sell_orders.map OrderStruct.quantity =
       (book2.match_ i2).book.sell_orders.map OrderStruct.quantity ∧
     (book1.match_ i1).book.buy_orders.map OrderStruct.quantity =
       (book2.match_ i2).book.buy_orders.map OrderStruct.quantity) ∧
    ((OrderBook.submit ⟨[scenario_iceberg_4], []⟩ scenario_buy_5).trades
        = [⟨4, 5, 50, 100⟩] ∧
     (OrderBook.submit ⟨[scenario_iceberg_4], []⟩ scenario_buy_5).book = ⟨[], []⟩) := by
  constructor
  · have key : (book1.match_ i1).trades = (book2.match_ i2).trades ∧
        same_terms (book1.match_ i1).incoming_order (book2.match_ i2).incoming_order ∧
        List.Forall₂ same_terms (book1.match_ i1).book.sell_orders
          (book2.match_ i2).book.sell_orders ∧
        List.Forall₂ same_terms (book1.match_ i1).book.buy_orders
          (book2.match_ i2).book.buy_orders := by
      unfold OrderBook.match_
      rw [← hi.1]
      split
      · obtain ⟨e1, e2, e3⟩ := match_one_side_same_terms _ _ hsell i1 i2 hi
        exact ⟨e1, e3, e2, hbuy⟩
      · obtain ⟨e1, e2, e3⟩ := match_one_side_same_terms _ _ hbuy i1 i2 hi
        exact ⟨e1, e3, hsell, e2⟩
    obtain ⟨k1, k2, k3, k4⟩ := key
    exact ⟨k1, k2, k3, k4, (same_terms_ids _ _ k3).1, (same_terms_ids _ _ k4).1,
      (same_terms_ids _ _ k3).2, (same_terms_ids _ _ k4).2⟩
  · simp [scenario_iceberg_eq, OrderBook.submit, OrderBook.match_, match_one_side,
      match_step, is_trade_possible]

/-- An instance of `match_ignores_display_volume`: the book of scenario C with the iceberg
order and the same book with a plain order of the same terms, hit by the same BUY order. -/
theorem match_ignores_display_volume_witness :
    List.Forall₂ same_terms
      (OrderBook.mk [scenario_iceberg_4] []).sell_orders
      (OrderBook.mk [⟨OrderSide.SELL, 4, 50, 100, 50, OrderKind.LimitOrder⟩] []).sell_orders ∧
    (OrderBook.match_ ⟨[scenario_iceberg_4], []⟩ scenario_buy_5).trades =
      (OrderBook.match_ ⟨[⟨OrderSide.SELL, 4, 50, 100, 50, OrderKind.LimitOrder⟩], []⟩
        scenario_buy_5).trades :=
  ⟨by simp [scenario_iceberg_eq, same_terms],
   (match_ignores_display_volume ⟨[scenario_iceberg_4], []⟩
      ⟨[⟨OrderSide.SELL, 4, 50, 100, 50, OrderKind.LimitOrder⟩], []⟩
      scenario_buy_5 scenario_buy_5
      (by simp [scenario_iceberg_eq, same_terms])
      List.Forall₂.nil ⟨rfl, rfl, rfl, rfl⟩).1.1⟩

/-! ## Display volume -/

/-- Claim C12. The display volume of an iceberg order with peak `peak` and remaining
quantity `quantity` is `min(peak, quantity)`, for all values of the two; the display volume
of a plain (limit) order is its quantity.  Consequently an iceberg order whose remaining
quantity is at most its peak displays its remaining quantity; this is the case for an
iceberg order at the front of the vector that `match_one_side` fills partly down to a
quantity that is at most its peak. -/
theorem display_volume_min (side : OrderSide) (id price quantity compare_by peak : Int) :
    OrderStruct.display_volume
        ⟨side, id, price, quantity, compare_by, OrderKind.IcebergOrder peak⟩
      = min peak quantity ∧
    OrderStruct.display_volume ⟨side, id, price, quantity, compare_by, OrderKind.LimitOrder⟩
      = quantity ∧
    (quantity ≤ peak →
      OrderStruct.display_volume
          ⟨side, id, price, quantity, compare_by, OrderKind.IcebergOrder peak⟩
        = quantity) ∧
    (∀ (rest : List OrderStruct) (incoming_order : OrderStruct),
      incoming_order.quantity > 0 →
      is_trade_possible ⟨side, id, price, quantity, compare_by, OrderKind.IcebergOrder peak⟩
        incoming_order = true →
      incoming_order.quantity < quantity →
      quantity - incoming_order.quantity ≤ peak →
      ∃ front,
        (match_one_side
          (⟨side, id, price, quantity, compare_by, OrderKind.IcebergOrder peak⟩ :: rest)
          incoming_order).order_book = front :: rest ∧
        front.kind = OrderKind.IcebergOrder peak ∧
        front.quantity = quantity - incoming_order.quantity ∧
        front.display_volume = quantity - incoming_order.quantity) := by
  refine ⟨rfl, rfl, ?_, ?_⟩
  · intro h
    simp only [OrderStruct.display_volume]
    exact min_eq_right h
  · intro rest incoming_order hq hp hlt hpeak
    rw [match_one_side_part_fill _ rest incoming_order hq hp hlt]
    refine ⟨_, rfl, rfl, rfl, ?_⟩
    simp only [OrderStruct.display_volume]
    exact min_eq_right hpeak

/-- Scenario C of the specification as an instance of `display_volume_min`: the iceberg
order with quantity 100 and peak 10 displays 10, and with a remaining quantity of 7 it
displays 7. -/
theorem display_volume_min_witness :
    scenario_iceberg_4.display_volume = 10 ∧
    ((7 : Int) ≤ 10 ∧
      OrderStruct.display_volume
        ⟨OrderSide.SELL, 4, 50, 7, 50, OrderKind.IcebergOrder 10⟩ = 7) :=
  ⟨by
    rw [scenario_iceberg_eq.1]
    exact ((display_volume_min OrderSide.SELL 4 50 100 50 10).1).trans (by decide),
   by decide,
   (display_volume_min OrderSide.SELL 4 50 7 50 10).2.2.1 (by decide)⟩

/-! ## What `match` leaves of the book -/

/-- Claim C13. `OrderBook::match` never inserts the incoming order and never touches the
vector of the incoming order's own side: after the call that vector is what it was, and
the opposite vector is a suffix of what it was, in which at most the quantity of the new
front order has been reduced, every other field of every resting order being unchanged;
each vector is left with at most as many orders as it had. -/
theorem match_inserts_nothing (book : OrderBook) (incoming_order : OrderStruct) :
    (book.match_ incoming_order).book.own_side incoming_order =
      book.own_side incoming_order ∧
    (∃ erased kept, book.opposite incoming_order = erased ++ kept ∧
      ((book.match_ incoming_order).book.opposite incoming_order = kept ∨
       ∃ top_order rest q, kept = top_order :: rest ∧ 0 < q ∧ q < top_order.quantity ∧
        (book.match_ incoming_order).book.opposite incoming_order =
          { top_order with quantity := q } :: rest)) ∧
    ((book.match_ incoming_order).book.opposite incoming_order).length ≤
      (book.opposite incoming_order).length ∧
    (book.match_ incoming_order).book.sell_orders.length ≤ book.sell_orders.length ∧
    (book.match_ incoming_order).book.buy_orders.length ≤ book.buy_orders.length := by
  have hshape : ∃ erased kept, book.opposite incoming_order = erased ++ kept ∧
      ((book.match_ incoming_order).book.opposite incoming_order = kept ∨
       ∃ top_order rest q, kept = top_order :: rest ∧ 0 < q ∧ q < top_order.quantity ∧
        (book.match_ incoming_order).book.opposite incoming_order =
          { top_order with quantity := q } :: rest) := by
    rw [match_opposite]
    rcases match_one_side_shape (book.opposite incoming_order) incoming_order with
      ⟨pre, hb, _, _, _, _⟩ | ⟨pre, top_order, rest, hb, _, _, h0, hlt, hb2, _, _⟩
    · exact ⟨pre, _, hb, Or.inl rfl⟩
    · exact ⟨pre, top_order :: rest, hb, Or.inr ⟨top_order, rest, _, rfl,
        by omega, by omega, hb2⟩⟩
  have hlen : ((book.match_ incoming_order).book.opposite incoming_order).length ≤
      (book.opposite incoming_order).length := by
    obtain ⟨erased, kept, hb, hk | ⟨top_order, rest, q, hk, _, _, hres⟩⟩ := hshape
    · rw [hk, hb, List.length_append]
      omega
    · rw [hres, hb, hk, List.length_append, List.length_cons, List.length_cons]
      omega
  have hown := match_own_side book incoming_order
  refine ⟨hown, hshape, hlen, ?_, ?_⟩
  · cases hside : incoming_order.side with
    | BUY =>
      simp only [OrderBook.opposite, hside, if_true] at hlen
      exact hlen
    | SELL =>
      simp only [OrderBook.own_side, hside, if_true] at hown
      rw [hown]
  · cases hside : incoming_order.side with
    | BUY =>
      have hne : ¬ (OrderSide.BUY = OrderSide.SELL) := by decide
      simp only [OrderBook.own_side, hside, hne, if_false] at hown
      rw [hown]
    | SELL =>
      have hne : ¬ (OrderSide.SELL = OrderSide.BUY) := by decide
      simp only [OrderBook.opposite, hside, hne, if_false] at hlen
      exact hlen

/-! ## Termination and the state at loop exit -/

/-- The run of `match_one_side` pass by pass: after as many passes as trades are printed
the loop is in the state the function returns, and the loop condition fails there. -/
theorem match_one_side_run (order_book : List OrderStruct) (incoming_order : OrderStruct) :
    state_after (match_one_side order_book incoming_order).trades.length
        order_book incoming_order =
      some ((match_one_side order_book incoming_order).order_book,
        (match_one_side order_book incoming_order).incoming_order) ∧
    match_step (match_one_side order_book incoming_order).order_book
      (match_one_side order_book incoming_order).incoming_order = none := by
  induction order_book, incoming_order using match_one_side.induct with
  | case1 order_book incoming_order hs =>
    rw [match_one_side_of_none hs]
    exact ⟨rfl, hs⟩
  | case2 order_book incoming_order trade order_book1 incoming_order1 hs ih =>
    rw [match_one_side_of_some hs]
    simp only [List.length_cons, state_after, hs]
    exact ih

/-- The number of trades of `match_one_side` is at most the number of orders in the
vector. -/
theorem match_one_side_trades_length (order_book : List OrderStruct)
    (incoming_order : OrderStruct) :
    (match_one_side order_book incoming_order).trades.length ≤ order_book.length := by
  rcases match_one_side_shape order_book incoming_order with
    ⟨pre, hb, _, ht, _, _⟩ | ⟨pre, top_order, rest, hb, _, _, _, _, _, ht, _⟩
  · rw [ht, List.length_map]
    conv_rhs => rw [hb]
    rw [List.length_append]
    omega
  · rw [ht, hb]
    simp only [List.length_append, List.length_map, List.length_cons, List.length_nil]
    omega

/-- Claim C17. `OrderBook::match` terminates for every book and every incoming order: after
`k` passes of the loop, `k` being the number of trades printed and at most the number of
orders resting on the opposite side at the start of the call, the loop is in the state the
call returns and its condition fails.  Each pass that runs the loop body either erases the
front order of the vector or leaves the incoming order with quantity 0. -/
theorem match_terminates (book : OrderBook) (incoming_order : OrderStruct) :
    (∃ k, k ≤ (book.opposite incoming_order).length ∧
      (book.match_ incoming_order).trades.length = k ∧
      state_after k (book.opposite incoming_order) incoming_order =
        some ((book.match_ incoming_order).book.opposite incoming_order,
          (book.match_ incoming_order).incoming_order) ∧
      match_step ((book.match_ incoming_order).book.opposite incoming_order)
        (book.match_ incoming_order).incoming_order = none) ∧
    (∀ (order_book : List OrderStruct) (incoming : OrderStruct) (trade : Trade)
        (order_book1 : List OrderStruct) (incoming1 : OrderStruct),
      match_step order_book incoming = some (trade, order_book1, incoming1) →
      order_book1 = order_book.tail ∨
        (order_book1.length = order_book.length ∧ incoming1.quantity = 0)) := by
  constructor
  · rw [match_trades, match_opposite, match_incoming]
    exact ⟨_, match_one_side_trades_length _ _, rfl, match_one_side_run _ _⟩
  · intro order_book incoming trade order_book1 incoming1 hs
    obtain ⟨top_order, rest, hb, hq, _, _, hb1, hi1⟩ := match_step_some hs
    subst hb
    by_cases hle : top_order.quantity - min incoming.quantity top_order.quantity ≤ 0
    · left
      rw [hb1, if_pos hle]
      rfl
    · right
      rw [hb1, if_neg hle, hi1]
      have hmin : min incoming.quantity top_order.quantity = incoming.quantity :=
        min_eq_left (by omega)
      simp [hmin]

/-- Scenario A of the specification as an instance of `match_terminates`: one pass, one
trade, one resting order. -/
theorem match_terminates_witness :
    match_step scenario_book_1.sell_orders scenario_buy_2 =
      some (⟨1, 2, 100, 4⟩,
        [⟨OrderSide.SELL, 1, 100, 6, 100, OrderKind.LimitOrder⟩],
        ⟨OrderSide.BUY, 2, 100, 0, -100, OrderKind.LimitOrder⟩) ∧
    ([⟨OrderSide.SELL, 1, 100, 6, 100, OrderKind.LimitOrder⟩] =
        scenario_book_1.sell_orders.tail ∨
      (([⟨OrderSide.SELL, 1, 100, 6, 100, OrderKind.LimitOrder⟩] :
          List OrderStruct).length = scenario_book_1.sell_orders.length ∧
        (⟨OrderSide.BUY, 2, 100, 0, -100, OrderKind.LimitOrder⟩ :
          OrderStruct).quantity = 0)) :=
  ⟨by simp [scenario_book_1_eq, scenario_buy_2_eq, match_step, is_trade_possible],
   (match_terminates scenario_book_1 scenario_buy_2).2
     scenario_book_1.sell_orders scenario_buy_2 ⟨1, 2, 100, 4⟩
     [⟨OrderSide.SELL, 1, 100, 6, 100, OrderKind.LimitOrder⟩]
     ⟨OrderSide.BUY, 2, 100, 0, -100, OrderKind.LimitOrder⟩
     (by simp [scenario_book_1_eq, scenario_buy_2_eq, match_step, is_trade_possible])⟩

/-! ## Aggressing fully -/

/-- Claim C18. When `OrderBook::match` returns, the opposite vector is empty, or the
incoming order has no quantity left (its quantity is at most 0), or the front order of the
opposite vector cannot trade with the incoming order.  When the opposite vector was sorted
by its keys, the keys being those the constructor gives to orders of that side (`price`
for the sell vector, `-price` for the buy vector), then in the last case no order left in
the opposite vector can trade with the incoming order. -/
theorem match_aggresses_fully (book : OrderBook) (incoming_order : OrderStruct) :
    ((book.match_ incoming_order).book.opposite incoming_order = [] ∨
      (book.match_ incoming_order).incoming_order.quantity ≤ 0 ∨
      ∃ front rest,
        (book.match_ incoming_order).book.opposite incoming_order = front :: rest ∧
        is_trade_possible front (book.match_ incoming_order).incoming_order = false) ∧
    (sorted_by_key (book.opposite incoming_order) →
      (∀ x ∈ book.opposite incoming_order,
        x.compare_by = if incoming_order.side = OrderSide.BUY then x.price else -x.price) →
      ∀ front rest,
        (book.match_ incoming_order).book.opposite incoming_order = front :: rest →
        is_trade_possible front (book.match_ incoming_order).incoming_order = false →
        ∀ x ∈ (book.match_ incoming_order).book.opposite incoming_order,
          is_trade_possible x (book.match_ incoming_order).incoming_order = false) := by
  rw [match_opposite, match_incoming]
  constructor
  · exact match_step_none (match_one_side_run _ _).2
  · intro hsorted hkeys front rest hfront hno x hx
    have hs := match_one_side_sorted _ incoming_order hsorted
    have hk := match_one_side_keeps
      (fun x => x.compare_by =
        if incoming_order.side = OrderSide.BUY then x.price else -x.price)
      (fun _ _ ho _ => ho) _ incoming_order hkeys
    have hf := match_one_side_incoming_fields (book.opposite incoming_order) incoming_order
    rw [hfront] at hs hk hx
    unfold sorted_by_key at hs
    rw [List.pairwise_cons] at hs
    have hkf := hk front (List.mem_cons_self _ _)
    rcases List.mem_cons.mp hx with rfl | hxr
    · exact hno
    · have hkx := hk x (List.mem_cons_of_mem _ hxr)
      have hle := hs.1 x hxr
      rw [hf] at hno ⊢
      unfold is_trade_possible at hno ⊢
      simp only at hno ⊢
      by_cases hside : incoming_order.side = OrderSide.BUY
      · simp only [hside, if_true, decide_eq_false_iff_not, not_le] at hno hkf hkx ⊢
        omega
      · simp only [hside, if_false, decide_eq_false_iff_not, not_le, ge_iff_le] at hno hkf hkx ⊢
        omega

/-- The book of the scenario after three submissions as an instance of
`match_aggresses_fully`: a BUY order at price 99 meets the sell vector, whose front order
asks 100, and trades with none of its orders. -/
theorem match_aggresses_fully_witness :
    sorted_by_key (scenario_book_2.opposite scenario_buy_9) ∧
    (∀ x ∈ scenario_book_2.opposite scenario_buy_9,
      x.compare_by = if scenario_buy_9.side = OrderSide.BUY then x.price else -x.price) ∧
    (∀ front rest,
      (scenario_book_2.match_ scenario_buy_9).book.opposite scenario_buy_9 = front :: rest →
      is_trade_possible front (scenario_book_2.match_ scenario_buy_9).incoming_order = false →
      ∀ x ∈ (scenario_book_2.match_ scenario_buy_9).book.opposite scenario_buy_9,
        is_trade_possible x (scenario_book_2.match_ scenario_buy_9).incoming_order = false) :=
  ⟨by simp [scenario_book_2_eq, scenario_buy_9_eq, OrderBook.opposite, sorted_by_key],
   by simp [scenario_book_2_eq, scenario_buy_9_eq, OrderBook.opposite],
   (match_aggresses_fully scenario_book_2 scenario_buy_9).2
     (by simp [scenario_book_2_eq, scenario_buy_9_eq, OrderBook.opposite, sorted_by_key])
     (by simp [scenario_book_2_eq, scenario_buy_9_eq, OrderBook.opposite])⟩

/-! ## The book is never crossed -/

/-- When `match_one_side` returns from a vector that is sorted by the keys of its side, the
incoming order has no quantity left or can trade with none of the orders left. -/
theorem match_one_side_exit_sorted (order_book : List OrderStruct)
    (incoming_order : OrderStruct) (hsorted : sorted_by_key order_book)
    (hkeys : ∀ x ∈ order_book,
      x.compare_by = if incoming_order.side = OrderSide.BUY then x.price else -x.price) :
    (match_one_side order_book incoming_order).incoming_order.quantity ≤ 0 ∨
    ∀ x ∈ (match_one_side order_book incoming_order).order_book,
      is_trade_possible x incoming_order = false := by
  have hs := match_one_side_sorted _ incoming_order hsorted
  have hk := match_one_side_keeps
    (fun x => x.compare_by =
      if incoming_order.side = OrderSide.BUY then x.price else -x.price)
    (fun _ _ ho _ => ho) _ incoming_order hkeys
  have hf := match_one_side_incoming_fields order_book incoming_order
  rcases match_step_none (match_one_side_run order_book incoming_order).2 with
    hnil | hq | ⟨front, rest, hfront, hno⟩
  · right
    rw [hnil]
    simp
  · exact Or.inl hq
  · right
    intro x hx
    rw [hfront] at hs hk hx
    unfold sorted_by_key at hs
    rw [List.pairwise_cons] at hs
    have hkf := hk front (List.mem_cons_self _ _)
    rw [hf, is_trade_possible_quantity] at hno
    rcases List.mem_cons.mp hx with rfl | hxr
    · exact hno
    · have hkx := hk x (List.mem_cons_of_mem _ hxr)
      have hle := hs.1 x hxr
      unfold is_trade_possible at hno ⊢
      by_cases hside : incoming_order.side = OrderSide.BUY
      · simp only [hside, if_true, decide_eq_false_iff_not, not_le] at hno hkf hkx ⊢
        omega
      · simp only [hside, if_false, decide_eq_false_iff_not, not_le, ge_iff_le] at hno hkf hkx ⊢
        omega

/-- A submission keeps an uncrossed book uncrossed. -/
theorem submit_uncrossed (book : OrderBook) (incoming_order : OrderStruct)
    (hinv : book.invariant) (hun : book.uncrossed) :
    (book.submit incoming_order).book.uncrossed := by
  obtain ⟨isell, ibuy, iss, isb⟩ := hinv
  unfold OrderBook.uncrossed at hun ⊢
  cases hside : incoming_order.side with
  | BUY =>
    obtain ⟨e1, e2, _, _⟩ := submit_book_buy book incoming_order hside
    have hf := match_one_side_incoming_fields book.sell_orders incoming_order
    rw [e1, e2]
    have hold : ∀ s ∈ (match_one_side book.sell_orders incoming_order).order_book,
        ∀ b ∈ book.buy_orders, b.price < s.price :=
      match_one_side_keeps (fun s => ∀ b ∈ book.buy_orders, b.price < s.price)
        (fun _ _ ho _ => ho) _ _ (fun s hs b hb => hun b hb s hs)
    intro b hb s hs
    split at hb
    · rename_i hq
      rcases (mem_insert_into _ _ _).mp hb with rfl | hb
      · rcases match_one_side_exit_sorted book.sell_orders incoming_order iss
            (by
              intro x hx
              rw [hside, if_pos rfl]
              exact (isell x hx).2.1) with hle | hno
        · omega
        · have := hno s hs
          unfold is_trade_possible at this
          simp only [hside, if_true, decide_eq_false_iff_not, not_le] at this
          rw [hf]
          exact this
      · exact hold s hs b hb
    · exact hold s hs b hb
  | SELL =>
    obtain ⟨e1, e2, _, _⟩ := submit_book_sell book incoming_order hside
    have hf := match_one_side_incoming_fields book.buy_orders incoming_order
    have hne : ¬ (OrderSide.SELL = OrderSide.BUY) := by decide
    rw [e1, e2]
    have hold : ∀ b ∈ (match_one_side book.buy_orders incoming_order).order_book,
        ∀ s ∈ book.sell_orders, b.price < s.price :=
      match_one_side_keeps (fun b => ∀ s ∈ book.sell_orders, b.price < s.price)
        (fun _ _ ho _ => ho) _ _ (fun b hb s hs => hun b hb s hs)
    intro b hb s hs
    split at hs
    · rename_i hq
      rcases (mem_insert_into _ _ _).mp hs with rfl | hs
      · rcases match_one_side_exit_sorted book.buy_orders incoming_order isb
            (by
              intro x hx
              rw [hside, if_neg hne]
              exact (ibuy x hx).2.1) with hle | hno
        · omega
        · have := hno b hb
          unfold is_trade_possible at this
          simp only [hside, hne, if_false, decide_eq_false_iff_not, not_le, ge_iff_le] at this
          rw [hf]
          exact this
      · exact hold b hb s hs
    · exact hold b hb s hs

/-- Claim C19. The book is never crossed: in every book reachable from the empty book by
submissions (`match`, then `insert` if a positive quantity remains) of constructed orders,
the price of every resting buy order is strictly less than the price of every resting sell
order; in particular the best bid is below the best ask whenever both vectors are
non-empty. -/
theorem reachable_uncrossed (book : OrderBook) (h : Reachable book) :
    (∀ b ∈ book.buy_orders, ∀ s ∈ book.sell_orders, b.price < s.price) ∧
    (∀ best_bid bids best_ask asks,
      book.buy_orders = best_bid :: bids → book.sell_orders = best_ask :: asks →
      best_bid.price < best_ask.price) := by
  have hun : book.uncrossed := by
    induction h with
    | empty => simp [OrderBook.uncrossed, OrderBook.empty]
    | submit book side id_field price_field quantity_field kind hr ih =>
      exact submit_uncrossed book _ (reachable_invariant book hr) ih
  refine ⟨hun, ?_⟩
  intro best_bid bids best_ask asks hb hs
  apply hun
  · rw [hb]
    exact List.mem_cons_self _ _
  · rw [hs]
    exact List.mem_cons_self _ _

/-- The book of the scenario after three submissions, which holds a sell order at 100 and
a buy order at 99, as an instance of `reachable_uncrossed`. -/
theorem reachable_uncrossed_witness :
    Reachable scenario_book_3 ∧
    ((∀ b ∈ scenario_book_3.buy_orders, ∀ s ∈ scenario_book_3.sell_orders,
      b.price < s.price) ∧
    (∀ best_bid bids best_ask asks,
      scenario_book_3.buy_orders = best_bid :: bids →
      scenario_book_3.sell_orders = best_ask :: asks →
      best_bid.price < best_ask.price)) :=
  ⟨scenario_reachable.2.2, reachable_uncrossed scenario_book_3 scenario_reachable.2.2⟩

/-! ## No empty trade -/

/-- An incoming order without a positive quantity does not enter the loop. -/
theorem match_one_side_no_quantity (order_book : List OrderStruct)
    (incoming_order : OrderStruct) (hq : incoming_order.quantity ≤ 0) :
    match_one_side order_book incoming_order = ⟨order_book, incoming_order, []⟩ := by
  cases order_book with
  | nil => exact match_one_side_nil _
  | cons top_order rest =>
    apply match_one_side_stop
    intro h
    omega

/-- With positive resting quantities every trade of `match_one_side` has a positive
quantity. -/
theorem match_one_side_trade_positive (order_book : List OrderStruct)
    (incoming_order : OrderStruct) (hpos : ∀ r ∈ order_book, 0 < r.quantity) :
    ∀ trade ∈ (match_one_side order_book incoming_order).trades, 0 < trade.quantity := by
  intro trade ht
  rcases match_one_side_shape order_book incoming_order with
    ⟨pre, hb, _, he, _, _⟩ | ⟨pre, top_order, rest, hb, _, _, h0, _, _, he, _⟩
  · rw [he] at ht
    obtain ⟨x, hx, rfl⟩ := List.mem_map.mp ht
    apply hpos
    rw [hb]
    exact List.mem_append_left _ hx
  · rw [he] at ht
    rcases List.mem_append.mp ht with ht | ht
    · obtain ⟨x, hx, rfl⟩ := List.mem_map.mp ht
      apply hpos
      rw [hb]
      exact List.mem_append_left _ hx
    · rw [List.mem_singleton] at ht
      rw [ht]
      exact h0

/-- Claim C20. No empty trade is ever emitted: for every book reachable from the empty
book by submissions of constructed orders and every incoming order, every trade message of
`OrderBook::match` has a quantity strictly greater than 0; and an incoming order with a
quantity of at most 0 produces no trade and is not inserted, the book being left as it
was. -/
theorem reachable_no_empty_trade (book : OrderBook) (h : Reachable book)
    (incoming_order : OrderStruct) :
    (∀ trade ∈ (book.match_ incoming_order).trades, 0 < trade.quantity) ∧
    (incoming_order.quantity ≤ 0 →
      (book.match_ incoming_order).trades = [] ∧
      (book.submit incoming_order).trades = [] ∧
      (book.submit incoming_order).book = book) := by
  obtain ⟨hsell, hbuy, _, _⟩ := reachable_invariant book h
  constructor
  · rw [match_trades]
    apply match_one_side_trade_positive
    intro r hr
    unfold OrderBook.opposite at hr
    split at hr
    · exact (hsell r hr).2.2
    · exact (hbuy r hr).2.2
  · intro hq
    have hm : book.match_ incoming_order = ⟨book, incoming_order, []⟩ := by
      unfold OrderBook.match_
      split
      · rw [match_one_side_no_quantity _ _ hq]
      · rw [match_one_side_no_quantity _ _ hq]
    have hs : book.submit incoming_order = ⟨book, incoming_order, []⟩ := by
      unfold OrderBook.submit
      simp only [hm]
      rw [if_neg (by omega)]
    rw [hm, hs]
    exact ⟨rfl, rfl, rfl⟩

/-- The book of scenario A as an instance of `reachable_no_empty_trade`, with an incoming
BUY order of quantity 0. -/
theorem reachable_no_empty_trade_witness :
    Reachable scenario_book_1 ∧
    (⟨OrderSide.BUY, 6, 100, 0, -100, OrderKind.LimitOrder⟩ : OrderStruct).quantity ≤ 0 ∧
    ((scenario_book_1.match_
        ⟨OrderSide.BUY, 6, 100, 0, -100, OrderKind.LimitOrder⟩).trades = [] ∧
      (scenario_book_1.submit
        ⟨OrderSide.BUY, 6, 100, 0, -100, OrderKind.LimitOrder⟩).trades = [] ∧
      (scenario_book_1.submit
        ⟨OrderSide.BUY, 6, 100, 0, -100, OrderKind.LimitOrder⟩).book = scenario_book_1) :=
  ⟨scenario_reachable.1, by decide,
   (reachable_no_empty_trade scenario_book_1 scenario_reachable.1
      ⟨OrderSide.BUY, 6, 100, 0, -100, OrderKind.LimitOrder⟩).2 (by decide)⟩

/-! ## Reading orders from input lines -/

/-- A value `std::stoi` returns lies in the range of `int`. -/
theorem stoi_range (str : List Char) (value : Int) (h : stoi str = Except.ok value) :
    -2147483648 ≤ value ∧ value ≤ 2147483647 := by
  have key : ∀ (digits : List Char) (v : Int),
      (if digits = [] then (Except.error ParseError.invalid_argument : Except ParseError Int)
       else if v < -2147483648 ∨ 2147483647 < v then Except.error ParseError.out_of_range
       else Except.ok v) = Except.ok value →
      -2147483648 ≤ value ∧ value ≤ 2147483647 := by
    intro digits v hv
    by_cases hd : digits = []
    · rw [if_pos hd] at hv
      exact absurd hv (by simp)
    · rw [if_neg hd] at hv
      by_cases hr : v < -2147483648 ∨ 2147483647 < v
      · rw [if_pos hr] at hv
        exact absurd hv (by simp)
      · rw [if_neg hr] at hv
        simp only [Except.ok.injEq] at hv
        omega
  exact key _ _ h

/-- What the base constructor reads when it succeeds: the side of the line and three values
in the range of `int`. -/
theorem read_line_ok (line : List Char) (side : OrderSide) (id_field price_field
    quantity_field : Int)
    (h : OrderStruct.read_line line = Except.ok (side, id_field, price_field, quantity_field)) :
    side = side_of_line line ∧
    (-2147483648 ≤ id_field ∧ id_field ≤ 2147483647) ∧
    (-2147483648 ≤ price_field ∧ price_field ≤ 2147483647) ∧
    (-2147483648 ≤ quantity_field ∧ quantity_field ≤ 2147483647) := by
  unfold OrderStruct.read_line at h
  simp only at h
  split at h
  · simp at h
  · rename_i v1 h1
    split at h
    · simp at h
    · rename_i v2 h2
      split at h
      · simp at h
      · rename_i v3 h3
        simp only [Except.ok.injEq, Prod.mk.injEq] at h
        obtain ⟨rfl, rfl, rfl, rfl⟩ := h
        exact ⟨rfl, stoi_range _ _ h1, stoi_range _ _ h2, stoi_range _ _ h3⟩

/-- Every order `order_from_string` returns is the order the constructor assembles from
the side of the line and three values in the range of `int`; it is a plain order when the
line has four fields and an iceberg order otherwise. -/
theorem order_from_string_ok (line : List Char) (order : OrderStruct)
    (h : order_from_string line = Except.ok order) :
    ∃ id_field price_field quantity_field kind,
      order = OrderStruct.construct (side_of_line line) id_field price_field
        quantity_field kind ∧
      (-2147483648 ≤ id_field ∧ id_field ≤ 2147483647) ∧
      (-2147483648 ≤ price_field ∧ price_field ≤ 2147483647) ∧
      (-2147483648 ≤ quantity_field ∧ quantity_field ≤ 2147483647) ∧
      (line.count INPUT_SEPARATOR + 1 = 4 → kind = OrderKind.LimitOrder) ∧
      (line.count INPUT_SEPARATOR + 1 ≠ 4 → ∃ peak, kind = OrderKind.IcebergOrder peak ∧
        -2147483648 ≤ peak ∧ peak ≤ 2147483647) := by
  unfold order_from_string at h
  simp only at h
  split at h
  · rename_i hc
    unfold LimitOrder.construct at h
    split at h
    · simp at h
    · rename_i side id_field price_field quantity_field hr
      simp only [Except.ok.injEq] at h
      obtain ⟨hs, h1, h2, h3⟩ := read_line_ok _ _ _ _ _ hr
      subst hs
      exact ⟨id_field, price_field, quantity_field, OrderKind.LimitOrder, h.symm, h1, h2, h3,
        fun _ => rfl, fun hne => absurd hc hne⟩
  · rename_i hc
    unfold IcebergOrder.construct at h
    split at h
    · simp at h
    · rename_i side id_field price_field quantity_field hr
      simp only at h
      split at h
      · simp at h
      · rename_i peak hp
        simp only [Except.ok.injEq] at h
        obtain ⟨hs, h1, h2, h3⟩ := read_line_ok _ _ _ _ _ hr
        subst hs
        exact ⟨id_field, price_field, quantity_field, OrderKind.IcebergOrder peak, h.symm,
          h1, h2, h3, fun he => absurd he hc, fun _ => ⟨peak, rfl, stoi_range _ _ hp⟩⟩

/-- A line that `OrderBook::process` reads takes a reachable book to a reachable book. -/
theorem process_line_reachable (book : OrderBook) (line : List Char) (book1 : OrderBook)
    (trades : List Trade) (hr : Reachable book)
    (h : book.process_line line = Except.ok (book1, trades)) : Reachable book1 := by
  unfold OrderBook.process_line at h
  simp only at h
  split at h
  · split at h
    · simp at h
    · rename_i incoming_order ho
      simp only [Except.ok.injEq, Prod.mk.injEq] at h
      obtain ⟨id_field, price_field, quantity_field, kind, he, _⟩ :=
        order_from_string_ok _ _ ho
      rw [← h.1, he]
      exact Reachable.submit book _ _ _ _ _ hr
  · simp only [Except.ok.injEq, Prod.mk.injEq] at h
    rw [← h.1]
    exact hr

/-- A good stream: `std::getline` reads a field that is followed by the separator. -/
theorem getline_field (first rest field : List Char)
    (h : INPUT_SEPARATOR ∉ first) :
    getline ⟨first ++ INPUT_SEPARATOR :: rest, true⟩ field INPUT_SEPARATOR =
      (⟨rest, true⟩, first) := by
  have hr : read_until INPUT_SEPARATOR (first ++ INPUT_SEPARATOR :: rest) =
      (first, some rest) := by
    induction first with
    | nil => simp [read_until]
    | cons ch first ih =>
      have hne : ch ≠ INPUT_SEPARATOR := fun he => h (he ▸ List.mem_cons_self _ _)
      have := ih (fun hm => h (List.mem_cons_of_mem _ hm))
      simp [read_until, hne, this]
  simp only [getline, hr, if_true]

/-- A good stream: `std::getline` reads a last field, which no separator follows, and the
stream is not good any more. -/
theorem getline_last (first field : List Char) (h : INPUT_SEPARATOR ∉ first) :
    getline ⟨first, true⟩ field INPUT_SEPARATOR = (⟨[], false⟩, first) := by
  have hr : read_until INPUT_SEPARATOR first = (first, none) := by
    induction first with
    | nil => simp [read_until]
    | cons ch first ih =>
      have hne : ch ≠ INPUT_SEPARATOR := fun he => h (he ▸ List.mem_cons_self _ _)
      have := ih (fun hm => h (List.mem_cons_of_mem _ hm))
      simp [read_until, hne, this]
  simp only [getline, hr, if_true]

/-- On a good stream `std::getline` does not read the old value of the field. -/
theorem getline_good (unread field1 field2 : List Char) :
    getline ⟨unread, true⟩ field1 INPUT_SEPARATOR =
      getline ⟨unread, true⟩ field2 INPUT_SEPARATOR := by
  simp only [getline, if_true]

/-- The base constructor reads a line that starts with a field not beginning with `S` as
it reads the line with the first field `B`. -/
theorem read_line_first_field (first rest : List Char) (hsep : INPUT_SEPARATOR ∉ first)
    (hside : first.head? ≠ some 'S') :
    OrderStruct.read_line (first ++ INPUT_SEPARATOR :: rest) =
      OrderStruct.read_line ('B' :: INPUT_SEPARATOR :: rest) := by
  have e1 := getline_field first rest [] hsep
  have e2 := getline_field ['B'] rest [] (by decide)
  have hs1 : side_of_line (first ++ INPUT_SEPARATOR :: rest) = OrderSide.BUY := by
    unfold side_of_line
    cases first with
    | nil => simp [INPUT_SEPARATOR]
    | cons ch first =>
      simp only [List.head?_cons, ne_eq, Option.some.injEq] at hside
      simp [hside]
  have hs2 : side_of_line ('B' :: INPUT_SEPARATOR :: rest) = OrderSide.BUY := by
    simp [side_of_line]
  simp only [List.singleton_append] at e2
  simp only [OrderStruct.read_line, e1, e2, hs1, hs2, getline_good rest first ['B']]

/-- The first field of a line is read for its first character only: a line whose first
field does not begin with `S` gives what the line with the first field `B` gives. -/
theorem order_from_string_first_field (first rest : List Char)
    (hsep : INPUT_SEPARATOR ∉ first) (hside : first.head? ≠ some 'S') :
    order_from_string (first ++ INPUT_SEPARATOR :: rest) =
      order_from_string ('B' :: INPUT_SEPARATOR :: rest) := by
  have e1 := getline_field first rest [] hsep
  have e2 := getline_field ['B'] rest [] (by decide)
  simp only [List.singleton_append] at e2
  have hcount : (first ++ INPUT_SEPARATOR :: rest).count INPUT_SEPARATOR =
      ('B' :: INPUT_SEPARATOR :: rest).count INPUT_SEPARATOR := by
    rw [List.count_append, List.count_eq_zero_of_not_mem hsep]
    simp [INPUT_SEPARATOR]
  simp only [order_from_string, LimitOrder.construct, IcebergOrder.construct, hcount,
    read_line_first_field first rest hsep hside, e1, e2, getline_good rest first ['B']]

/-- A line on which the construction of the order fails ends `OrderBook::process` with the
exception: no book results from it. -/
theorem process_line_error (book : OrderBook) (line : List Char) (e : ParseError)
    (hne : trim line ≠ []) (hc : (trim line).head? ≠ some '#')
    (h : order_from_string (trim line) = Except.error e) :
    book.process_line line = Except.error e := by
  unfold OrderBook.process_line
  simp only [hne, hc, ne_eq, not_false_eq_true, and_self, if_true, h]

/-- The line `X,1,100,10` is read as a BUY order, which rests in the empty book. -/
theorem line_x_evaluated :
    order_from_string (String.toList "X,1,100,10") =
      Except.ok ⟨OrderSide.BUY, 1, 100, 10, -100, OrderKind.LimitOrder⟩ ∧
    OrderBook.process_line OrderBook.empty (String.toList "X,1,100,10") =
      Except.ok (⟨[], [⟨OrderSide.BUY, 1, 100, 10, -100, OrderKind.LimitOrder⟩]⟩, []) := by
  have h1 : order_from_string (String.toList "X,1,100,10") =
      Except.ok ⟨OrderSide.BUY, 1, 100, 10, -100, OrderKind.LimitOrder⟩ := by rfl
  have ht : trim (String.toList "X,1,100,10") = String.toList "X,1,100,10" := by rfl
  refine ⟨h1, ?_⟩
  unfold OrderBook.process_line
  simp only [ht, h1]
  simp [OrderBook.submit, OrderBook.match_, OrderBook.empty, match_one_side_nil,
    OrderBook.insert, insert_into, upper_bound]

/-! ## The side field -/

/-- The claim that a line whose first field is neither `B` nor `S` is rejected and leaves
the book unchanged fails on the line `X,1,100,10`: the constructor returns a BUY order,
and `OrderBook::process` inserts it into the empty book. -/
theorem unknown_side_not_rejected :
    (String.toList "X,1,100,10").head? = some 'X' ∧
    order_from_string (String.toList "X,1,100,10") =
      Except.ok ⟨OrderSide.BUY, 1, 100, 10, -100, OrderKind.LimitOrder⟩ ∧
    OrderBook.process_line OrderBook.empty (String.toList "X,1,100,10") =
      Except.ok (⟨[], [⟨OrderSide.BUY, 1, 100, 10, -100, OrderKind.LimitOrder⟩]⟩, []) ∧
    (⟨[], [⟨OrderSide.BUY, 1, 100, 10, -100, OrderKind.LimitOrder⟩]⟩ : OrderBook)
      ≠ OrderBook.empty :=
  ⟨rfl, line_x_evaluated.1, line_x_evaluated.2, by simp [OrderBook.empty]⟩

/-- Claim C14, amended. The side field is not validated: an order constructed from a line
whose first character is not `S` is a BUY order; a line whose first field does not begin
with `S` is read exactly as the line with the first field `B`, so that construction
succeeds or fails as it does there; and when construction fails (a `std::stoi` call
throws), `OrderBook::process` ends with the exception and no book results from the
line. -/
theorem side_defaults_to_buy :
    (∀ (line : List Char) (order : OrderStruct),
      line.head? ≠ some 'S' → order_from_string line = Except.ok order →
      order.side = OrderSide.BUY) ∧
    (∀ first rest : List Char,
      INPUT_SEPARATOR ∉ first → first.head? ≠ some 'S' →
      order_from_string (first ++ INPUT_SEPARATOR :: rest) =
        order_from_string ('B' :: INPUT_SEPARATOR :: rest)) ∧
    (∀ (book : OrderBook) (line : List Char) (e : ParseError),
      trim line ≠ [] → (trim line).head? ≠ some '#' →
      order_from_string (trim line) = Except.error e →
      book.process_line line = Except.error e) := by
  refine ⟨?_, order_from_string_first_field, process_line_error⟩
  intro line order hhead h
  obtain ⟨id_field, price_field, quantity_field, kind, he, _⟩ := order_from_string_ok _ _ h
  rw [he]
  simp [OrderStruct.construct, side_of_line, hhead]

/-- The line `X,1,100,10` as an instance of `side_defaults_to_buy`. -/
theorem side_defaults_to_buy_witness :
    (String.toList "X,1,100,10").head? ≠ some 'S' ∧
    order_from_string (String.toList "X,1,100,10") =
      Except.ok ⟨OrderSide.BUY, 1, 100, 10, -100, OrderKind.LimitOrder⟩ ∧
    (⟨OrderSide.BUY, 1, 100, 10, -100, OrderKind.LimitOrder⟩ : OrderStruct).side
      = OrderSide.BUY :=
  ⟨by decide, line_x_evaluated.1,
   side_defaults_to_buy.1 (String.toList "X,1,100,10")
     ⟨OrderSide.BUY, 1, 100, 10, -100, OrderKind.LimitOrder⟩ (by decide)
     line_x_evaluated.1⟩

/-! ## The number of fields -/

/-- The side of a line is read from what stands in front of and at its first separator. -/
theorem side_of_line_first_field (first rest1 rest2 : List Char) :
    side_of_line (first ++ INPUT_SEPARATOR :: rest1) =
      side_of_line (first ++ INPUT_SEPARATOR :: rest2) := by
  unfold side_of_line
  cases first <;> simp

/-- The iceberg constructor reads the first five fields of a line and nothing behind
them. -/
theorem iceberg_first_five (f1 f2 f3 f4 f5 more : List Char)
    (h1 : INPUT_SEPARATOR ∉ f1) (h2 : INPUT_SEPARATOR ∉ f2) (h3 : INPUT_SEPARATOR ∉ f3)
    (h4 : INPUT_SEPARATOR ∉ f4) (h5 : INPUT_SEPARATOR ∉ f5) :
    IcebergOrder.construct
        (f1 ++ INPUT_SEPARATOR :: (f2 ++ INPUT_SEPARATOR :: (f3 ++ INPUT_SEPARATOR ::
          (f4 ++ INPUT_SEPARATOR :: (f5 ++ INPUT_SEPARATOR :: more))))) =
      IcebergOrder.construct
        (f1 ++ INPUT_SEPARATOR :: (f2 ++ INPUT_SEPARATOR :: (f3 ++ INPUT_SEPARATOR ::
          (f4 ++ INPUT_SEPARATOR :: f5)))) := by
  simp only [IcebergOrder.construct, OrderStruct.read_line,
    getline_field f1 _ _ h1, getline_field f2 _ _ h2, getline_field f3 _ _ h3,
    getline_field f4 _ _ h4, getline_field f5 _ _ h5, getline_last f5 _ h5,
    side_of_line_first_field f1 _ (f2 ++ INPUT_SEPARATOR :: (f3 ++ INPUT_SEPARATOR ::
          (f4 ++ INPUT_SEPARATOR :: f5)))]

/-- The line `B,1,100,10,5,7` is read as an iceberg order with peak 5, which rests in the
empty book. -/
theorem line_six_evaluated :
    order_from_string (String.toList "B,1,100,10,5,7") =
      Except.ok ⟨OrderSide.BUY, 1, 100, 10, -100, OrderKind.IcebergOrder 5⟩ ∧
    OrderBook.process_line OrderBook.empty (String.toList "B,1,100,10,5,7") =
      Except.ok (⟨[], [⟨OrderSide.BUY, 1, 100, 10, -100, OrderKind.IcebergOrder 5⟩]⟩, []) := by
  have h1 : order_from_string (String.toList "B,1,100,10,5,7") =
      Except.ok ⟨OrderSide.BUY, 1, 100, 10, -100, OrderKind.IcebergOrder 5⟩ := by rfl
  have ht : trim (String.toList "B,1,100,10,5,7") = String.toList "B,1,100,10,5,7" := by rfl
  refine ⟨h1, ?_⟩
  unfold OrderBook.process_line
  simp only [ht, h1]
  simp [OrderBook.submit, OrderBook.match_, OrderBook.empty, match_one_side_nil,
    OrderBook.insert, insert_into, upper_bound]

/-- The claim that a line with a field count other than four or five is rejected and
mutates no book fails on the line `B,1,100,10,5,7` with six fields: the constructor
returns an iceberg order made of the first five fields, and `OrderBook::process` inserts
it into the empty book. -/
theorem six_fields_not_rejected :
    (String.toList "B,1,100,10,5,7").count INPUT_SEPARATOR + 1 = 6 ∧
    order_from_string (String.toList "B,1,100,10,5,7") =
      Except.ok ⟨OrderSide.BUY, 1, 100, 10, -100, OrderKind.IcebergOrder 5⟩ ∧
    OrderBook.process_line OrderBook.empty (String.toList "B,1,100,10,5,7") =
      Except.ok (⟨[], [⟨OrderSide.BUY, 1, 100, 10, -100, OrderKind.IcebergOrder 5⟩]⟩, []) ∧
    (⟨[], [⟨OrderSide.BUY, 1, 100, 10, -100, OrderKind.IcebergOrder 5⟩]⟩ : OrderBook)
      ≠ OrderBook.empty :=
  ⟨by decide, line_six_evaluated.1, line_six_evaluated.2, by simp [OrderBook.empty]⟩

/-- Claim C15, amended. `order_from_string` constructs a plain order from a line with four
fields and hands every other line to the iceberg constructor, so that a line with five
fields gives an iceberg order; no line is rejected for its number of fields: a line with
more than five fields is read exactly as the line made of its first five fields.  A line
gives no order only when a `std::stoi` call throws, and then `OrderBook::process` ends
with the exception and no book results from the line. -/
theorem field_count_dispatch :
    (∀ line : List Char, line.count INPUT_SEPARATOR + 1 = 4 →
      order_from_string line = LimitOrder.construct line) ∧
    (∀ line : List Char, line.count INPUT_SEPARATOR + 1 ≠ 4 →
      order_from_string line = IcebergOrder.construct line) ∧
    (∀ (line : List Char) (order : OrderStruct), order_from_string line = Except.ok order →
      (line.count INPUT_SEPARATOR + 1 = 4 → order.kind = OrderKind.LimitOrder) ∧
      (line.count INPUT_SEPARATOR + 1 = 5 → ∃ peak, order.kind = OrderKind.IcebergOrder peak)) ∧
    (∀ f1 f2 f3 f4 f5 more : List Char,
      INPUT_SEPARATOR ∉ f1 → INPUT_SEPARATOR ∉ f2 → INPUT_SEPARATOR ∉ f3 →
      INPUT_SEPARATOR ∉ f4 → INPUT_SEPARATOR ∉ f5 →
      order_from_string
          (f1 ++ INPUT_SEPARATOR :: (f2 ++ INPUT_SEPARATOR :: (f3 ++ INPUT_SEPARATOR ::
            (f4 ++ INPUT_SEPARATOR :: (f5 ++ INPUT_SEPARATOR :: more))))) =
        order_from_string
          (f1 ++ INPUT_SEPARATOR :: (f2 ++ INPUT_SEPARATOR :: (f3 ++ INPUT_SEPARATOR ::
            (f4 ++ INPUT_SEPARATOR :: f5))))) ∧
    (∀ (book : OrderBook) (line : List Char) (e : ParseError),
      trim line ≠ [] → (trim line).head? ≠ some '#' →
      order_from_string (trim line) = Except.error e →
      book.process_line line = Except.error e) := by
  refine ⟨?_, ?_, ?_, ?_, process_line_error⟩
  · intro line h
    simp only [order_from_string, h, if_true]
  · intro line h
    simp only [order_from_string, h, if_false]
  · intro line order h
    obtain ⟨id_field, price_field, quantity_field, kind, he, _, _, _, hl, hi⟩ :=
      order_from_string_ok _ _ h
    constructor
    · intro hc
      rw [he, hl hc]
      rfl
    · intro hc
      obtain ⟨peak, hk, _⟩ := hi (by omega)
      exact ⟨peak, by rw [he, hk]; rfl⟩
  · intro f1 f2 f3 f4 f5 more h1 h2 h3 h4 h5
    have c1 := List.count_eq_zero_of_not_mem h1
    have c2 := List.count_eq_zero_of_not_mem h2
    have c3 := List.count_eq_zero_of_not_mem h3
    have c4 := List.count_eq_zero_of_not_mem h4
    have c5 := List.count_eq_zero_of_not_mem h5
    have hc6 : (f1 ++ INPUT_SEPARATOR :: (f2 ++ INPUT_SEPARATOR :: (f3 ++ INPUT_SEPARATOR ::
        (f4 ++ INPUT_SEPARATOR :: (f5 ++ INPUT_SEPARATOR :: more))))).count INPUT_SEPARATOR
        + 1 ≠ 4 := by
      simp only [List.count_append, List.count_cons_self, c1, c2, c3, c4, c5]
      omega
    have hc5 : (f1 ++ INPUT_SEPARATOR :: (f2 ++ INPUT_SEPARATOR :: (f3 ++ INPUT_SEPARATOR ::
        (f4 ++ INPUT_SEPARATOR :: f5)))).count INPUT_SEPARATOR + 1 ≠ 4 := by
      simp only [List.count_append, List.count_cons_self, c1, c2, c3, c4, c5]
      omega
    simp only [order_from_string, hc6, hc5, if_false]
    exact iceberg_first_five f1 f2 f3 f4 f5 more h1 h2 h3 h4 h5

/-- The line `B,1,100,10,5,7` as an instance of `field_count_dispatch`: it is read as the
line `B,1,100,10,5`. -/
theorem field_count_dispatch_witness :
    (String.toList "B,1,100,10,5,7").count INPUT_SEPARATOR + 1 ≠ 4 ∧
    order_from_string (String.toList "B,1,100,10,5,7") =
      IcebergOrder.construct (String.toList "B,1,100,10,5,7") ∧
    order_from_string (String.toList "B,1,100,10,5,7") =
      order_from_string (String.toList "B,1,100,10,5") :=
  ⟨by decide,
   field_count_dispatch.2.1 (String.toList "B,1,100,10,5,7") (by decide),
   field_count_dispatch.2.2.2.1 (String.toList "B") (String.toList "1")
     (String.toList "100") (String.toList "10") (String.toList "5") (String.toList "7")
     (by decide) (by decide) (by decide) (by decide) (by decide)⟩

/-! ## The price field -/

/-- The cast to `short` lands in the range of `short` and leaves a value of that range as
it is. -/
theorem static_cast_short_range (n : Int) :
    -32768 ≤ static_cast_short n ∧ static_cast_short n ≤ 32767 ∧
    (-32768 ≤ n → n ≤ 32767 → static_cast_short n = n) := by
  unfold static_cast_short
  refine ⟨by omega, by omega, ?_⟩
  intro h1 h2
  omega

/-- The line `B,1,40000,10` is read as a BUY order with the price -25536. -/
theorem line_price_evaluated :
    order_from_string (String.toList "B,1,40000,10") =
      Except.ok ⟨OrderSide.BUY, 1, -25536, 10, 25536, OrderKind.LimitOrder⟩ := by
  rfl

/-- The claim that a price field which is not representable in 16 bits makes construction
fail, and that an accepted price field is the price of the order, fails on the line
`B,1,40000,10`: the constructor returns an order, and its price is -25536. -/
theorem wide_price_not_rejected :
    stoi (String.toList "40000") = Except.ok 40000 ∧ ¬ ((40000 : Int) ≤ 32767) ∧
    order_from_string (String.toList "B,1,40000,10") =
      Except.ok ⟨OrderSide.BUY, 1, -25536, 10, 25536, OrderKind.LimitOrder⟩ ∧
    (OrderStruct.construct OrderSide.BUY 1 40000 10 OrderKind.LimitOrder).price ≠ 40000 :=
  ⟨rfl, by decide, line_price_evaluated, by decide⟩

/-- Claim C16, amended. A price field that is not representable as `int` makes
construction fail (`std::stoi` throws, as for `3000000000`), since every value `std::stoi`
returns lies in the range of `int`.  A price field within the range of `int` is accepted,
and the price of the order is the value of the field reduced modulo `2^16` into
`-32768 .. 32767` (40000 gives -25536); it is the value of the field whenever that value
is representable in 16 bits.  In every case the sort key `compare_by` of the constructed
order is its price for a SELL order and minus its price for a BUY order, computed without
overflow: it lies between -32768 and 32768, the price -32768 of a BUY order giving the
key 32768. -/
theorem price_narrowed_to_short (side : OrderSide) (id_field price_field quantity_field : Int)
    (kind : OrderKind) :
    (OrderStruct.construct side id_field price_field quantity_field kind).price =
      static_cast_short price_field ∧
    (-32768 ≤ (OrderStruct.construct side id_field price_field quantity_field kind).price ∧
      (OrderStruct.construct side id_field price_field quantity_field kind).price ≤ 32767) ∧
    (-32768 ≤ price_field → price_field ≤ 32767 →
      (OrderStruct.construct side id_field price_field quantity_field kind).price
        = price_field) ∧
    (OrderStruct.construct side id_field price_field quantity_field kind).compare_by =
      (if side = OrderSide.SELL then
        (OrderStruct.construct side id_field price_field quantity_field kind).price
       else -(OrderStruct.construct side id_field price_field quantity_field kind).price) ∧
    (-32768 ≤ (OrderStruct.construct side id_field price_field quantity_field kind).compare_by ∧
      (OrderStruct.construct side id_field price_field quantity_field kind).compare_by
        ≤ 32768) ∧
    (OrderStruct.construct OrderSide.BUY id_field (-32768) quantity_field kind).compare_by
      = 32768 ∧
    (OrderStruct.construct OrderSide.SELL id_field (-32768) quantity_field kind).compare_by
      = -32768 ∧
    (∀ (str : List Char) (value : Int), stoi str = Except.ok value →
      -2147483648 ≤ value ∧ value ≤ 2147483647) ∧
    (∀ (line : List Char) (order : OrderStruct), order_from_string line = Except.ok order →
      ∃ price, -2147483648 ≤ price ∧ price ≤ 2147483647 ∧
        order.price = static_cast_short price) ∧
    order_from_string (String.toList "B,1,3000000000,10") =
      Except.error ParseError.out_of_range ∧
    order_from_string (String.toList "B,1,40000,10") =
      Except.ok ⟨OrderSide.BUY, 1, -25536, 10, 25536, OrderKind.LimitOrder⟩ := by
  obtain ⟨r1, r2, r3⟩ := static_cast_short_range price_field
  have hkey : (OrderStruct.construct side id_field price_field quantity_field kind).compare_by =
      (if side = OrderSide.SELL then static_cast_short price_field
       else -static_cast_short price_field) := by
    simp [OrderStruct.construct]
  refine ⟨rfl, ⟨r1, r2⟩, r3, ?_, ?_, ?_, ?_, stoi_range, ?_, rfl, line_price_evaluated⟩
  · simp [OrderStruct.construct]
  · rw [hkey]
    split <;> constructor <;> omega
  · simp [OrderStruct.construct, static_cast_short]
  · simp [OrderStruct.construct, static_cast_short]
  · intro line order h
    obtain ⟨id2, price2, quantity2, kind2, he, _, hp, _⟩ := order_from_string_ok _ _ h
    exact ⟨price2, hp.1, hp.2, by rw [he]; rfl⟩

/-- The price field 100 as an instance of `price_narrowed_to_short`: it is representable
in 16 bits and is the price of the order. -/
theorem price_narrowed_to_short_witness :
    (-32768 : Int) ≤ 100 ∧ (100 : Int) ≤ 32767 ∧
    (OrderStruct.construct OrderSide.SELL 1 100 10 OrderKind.LimitOrder).price = 100 :=
  ⟨by decide, by decide,
   (price_narrowed_to_short OrderSide.SELL 1 100 10 OrderKind.LimitOrder).2.2.1
     (by decide) (by decide)⟩

end MatchingEngine
